import Mathlib

set_option autoImplicit false

/-!
Verification of the `generator` package of gnostic-grpc (`generator/generator.go`).

The Go program translates a "surface model" (types, fields, methods and
symbolic references extracted from an OpenAPI description) into a protobuf
`FileDescriptorSet`.  This file is a shallow embedding of that program:

* the surface-model and descriptor data types mirror the Go structs, keeping
  only the fields the program reads or writes;
* every Go function used by the generator is translated to a Lean function of
  the same name; in-place mutation of descriptors becomes explicit record
  update, and the three package-level mutable variables
  (`generatedSymbolicReferences`, `generatedMessages`,
  `shouldRenderEmptyImport`) become an explicit `GenState` value threaded
  through the functions;
* the external collaborator chain of `buildSymbolicReferences` (the `gnostic`
  subprocess, `createOpenAPIDocFromGnosticOutput`, `NewModelFromOpenAPI3` and
  `Prepare`, generator.go lines 121-144) is abstracted as an oracle
  `resolve : String → Except String SModel` that produces the prepared
  surface model of a referenced document, or fails;
* the unbounded recursion of `runFileDescriptorSetGenerator` is bounded by an
  explicit fuel parameter; running out of fuel is an error, so every theorem
  about a successful run speaks about behaviour the Go program exhibits;
* Go `string` indexing is byte based; `goByteDropList` reproduces `s[n:]`
  including its out-of-range panic (modelled as `Option.none`, which the
  message builder turns into an aborting error).
-/

/-! ### String constants used by the generator -/

def emptyStr : String := ""
def dotStr : String := "."
def protoExt : String := ".proto"
def proto3Str : String := "proto3"
def emptyProtoFileName : String := "google/protobuf/empty.proto"
def annotationsProtoFileName : String := "google/api/annotations.proto"
def descriptorProtoFileName : String := "google/protobuf/descriptor.proto"
def googleProtobufEmptyTypeName : String := "google.protobuf.Empty"
def serviceSuffix : String := "Service"
def entrySuffix : String := "Entry"
def mapMarker : String := "map"
def mapOfArrayMarker : String := "map[string][]"
def mapStringMarker : String := "map[string]"
def keyStr : String := "key"
def valueStr : String := "value"
def httpStr : String := "http"
def httpRuleTypeName : String := "google.api.HttpRule"
def methodOptionsExtendee : String := ".google.protobuf.MethodOptions"
def unexpectedEOFMsg : String := "unexpected EOF"
def outOfFuelMsg : String := "recursion bound exhausted"
def panicEmptySetMsg : String := "panic: index out of range in getLast"
def panicStringIndexMsg : String := "panic: string index out of range"

/-! ### Go string primitives, modelled over `String.data` -/

/-- Go `strings.HasPrefix` on rune lists: `listIsPrefixOf sub s` is true when
`sub` is a prefix of `s`. -/
def listIsPrefixOf : List Char → List Char → Bool
  | [], _ => true
  | _ :: _, [] => false
  | a :: as, b :: bs => a = b && listIsPrefixOf as bs

/-- Substring search on rune lists, used to model Go `strings.Contains`. -/
def listContainsSub : List Char → List Char → Bool
  | [], sub => listIsPrefixOf sub []
  | c :: rest, sub => listIsPrefixOf sub (c :: rest) || listContainsSub rest sub

/-- Go `strings.Contains s sub`. -/
def stringsContains (s sub : String) : Bool :=
  listContainsSub s.data sub.data

/-- The first element of Go `strings.Split(url, "#")`: the part of `url`
before its first `#`, or all of `url` when it has none. -/
def trimFragment (url : String) : String :=
  String.mk (url.data.takeWhile (fun c => c ≠ '#'))

/-- Go `path.Base`: last element of the path, after trailing slashes are
removed; `"."` for the empty path, `"/"` for an all-slash path. -/
def pathBase (p : String) : String :=
  if p.data.isEmpty then String.mk ['.']
  else
    let q := p.data.reverse.dropWhile (fun c => c = '/')
    if q.isEmpty then String.mk ['/']
    else String.mk ((q.takeWhile (fun c => c ≠ '/')).reverse)

/-- Go `filepath.Ext`: the suffix of the last path element starting at its
final dot, or the empty string when the last element has no dot. -/
def filepathExt (p : String) : String :=
  let seg := p.data.reverse.takeWhile (fun c => c ≠ '/')
  let before := seg.takeWhile (fun c => c ≠ '.')
  if before.length = seg.length then String.mk []
  else String.mk ((seg.take (before.length + 1)).reverse)

/-- Go `strings.TrimSuffix`. -/
def trimSuffix (s suffix : String) : String :=
  if listIsPrefixOf suffix.data.reverse s.data.reverse then
    String.mk (s.data.take (s.data.length - suffix.data.length))
  else s

/-- Go `unicode.ToUpper`, restricted to ASCII (every string this program
upper-cases is ASCII). -/
def stringToUpper (s : String) : String :=
  String.mk (s.data.map Char.toUpper)

/-- Word separator test of Go `strings.Title` (ASCII fragment): letters,
digits and underscore continue a word. -/
def goIsSeparator (c : Char) : Bool :=
  !(c.isAlpha || c.isDigit || c = '_')

/-- Worker for `titleCase`; the flag says whether the previous rune was a
separator. -/
def titleCaseGo : Bool → List Char → List Char
  | _, [] => []
  | prevSep, c :: rest =>
    (if prevSep then c.toUpper else c) :: titleCaseGo (goIsSeparator c) rest

/-- Go `strings.Title` (ASCII fragment): upper-case each word-initial rune. -/
def titleCase (s : String) : String :=
  String.mk (titleCaseGo true s.data)

/-- Little-endian decimal digits of `n`, with enough fuel (`fuel ≥ n`). -/
def itoaAux : Nat → Nat → List Char
  | 0, _ => []
  | _ + 1, 0 => []
  | fuel + 1, n + 1 =>
    Char.ofNat (48 + (n + 1) % 10) :: itoaAux fuel ((n + 1) / 10)

/-- Go `strconv.Itoa` for the natural numbers this program feeds it. -/
def itoa (n : Nat) : String :=
  if n = 0 then String.mk ['0'] else String.mk ((itoaAux n n).reverse)

/-- Go `s[n:]` on the UTF-8 bytes of a rune list: drops the first `n` bytes;
`none` models the out-of-range panic (and a cut inside a multi-byte rune,
which would give a non-UTF-8 Go string). -/
def goByteDropList : List Char → Nat → Option (List Char)
  | cs, 0 => some cs
  | [], _ + 1 => none
  | c :: cs, n + 1 =>
    if c.utf8Size ≤ n + 1 then goByteDropList cs (n + 1 - c.utf8Size) else none

/-- Go `s[n:]` on strings. -/
def goStringDropBytes (s : String) (n : Nat) : Option String :=
  (goByteDropList s.data n).map String.mk

/-- Go `len` of a string: the number of UTF-8 bytes. -/
def goStringLen (s : String) : Nat :=
  (s.data.map Char.utf8Size).sum

/-- Byte-wise (equals rune-wise, for UTF-8) lexicographic order on rune
lists, as used by Go `sort.Strings`. -/
def leChars : List Char → List Char → Bool
  | [], _ => true
  | _ :: _, [] => false
  | a :: as, b :: bs =>
    if a.toNat < b.toNat then true
    else if b.toNat < a.toNat then false
    else leChars as bs

/-- Go string order `a <= b`. -/
def leString (a b : String) : Bool :=
  leChars a.data b.data

/-- Go `sort.Strings`: the ascending reordering of `l` (insertion sort; the
result is the unique sorted permutation and so agrees with Go's sort). -/
def sortStrings (l : List String) : List String :=
  List.insertionSort (fun a b => leString a b = true) l

/-! ### The surface model (input, `surface_v1` of gnostic)

Only the fields `generator.go` reads are represented.  Names `SField`,
`SType`, `SMethod`, `SModel` stand for `surface_v1.Field`, `surface_v1.Type`,
`surface_v1.Method` and `surface_v1.Model`. -/

inductive FieldKind where
  | SCALAR | MAP | ARRAY | REFERENCE | ANY
deriving DecidableEq

inductive SPosition where
  | BODY | HEADER | FORMDATA | QUERY | PATH
deriving DecidableEq

structure SField where
  FieldName : String
  Name : String := emptyStr
  NativeType : String
  Kind : FieldKind
  Position : SPosition := SPosition.BODY
  EnumValues : Option (List String) := none
deriving DecidableEq

structure SType where
  TypeName : String
  Name : String := emptyStr
  Description : String := emptyStr
  Fields : List SField := []
deriving DecidableEq

structure SMethod where
  Method : String
  Path : String
  HandlerName : String
  ParametersTypeName : String
  ResponsesTypeName : String
deriving DecidableEq

structure SModel where
  Types : List SType := []
  Methods : List SMethod := []
  SymbolicReferences : List String := []
deriving DecidableEq

/-! ### Descriptor protos (output, `dpb` descriptors)

Only the fields this program reads or writes are represented.  Proto fields
that the program may leave unset are `Option`; fields it always sets are
plain.  `DescriptorProto.NestedType` in Go holds recursive
`DescriptorProto`s, but the only nested messages this program ever creates
are the synthesized flat map-entry messages, so nested types are modelled by
the flat `NestedDescriptorProto` (name, fields, options). -/

inductive FieldLabel where
  | LABEL_OPTIONAL | LABEL_REPEATED
deriving DecidableEq

inductive FieldType where
  | TYPE_DOUBLE | TYPE_FLOAT | TYPE_INT64 | TYPE_UINT64 | TYPE_INT32
  | TYPE_FIXED64 | TYPE_FIXED32 | TYPE_BOOL | TYPE_STRING | TYPE_BYTES
  | TYPE_UINT32 | TYPE_SFIXED32 | TYPE_SFIXED64 | TYPE_SINT32 | TYPE_SINT64
  | TYPE_MESSAGE | TYPE_ENUM
deriving DecidableEq

structure FieldDescriptorProto where
  Name : Option String := none
  Number : Option Int := none
  Label : Option FieldLabel := none
  Type' : Option FieldType := none
  TypeName : Option String := none
  Extendee : Option String := none
deriving DecidableEq

structure EnumValueDescriptorProto where
  Name : String
  Number : Int
deriving DecidableEq

structure EnumDescriptorProto where
  Name : String
  Value : List EnumValueDescriptorProto := []
deriving DecidableEq

structure MessageOptions where
  MapEntry : Bool
deriving DecidableEq

structure NestedDescriptorProto where
  Name : String
  Field : List FieldDescriptorProto := []
  Options : Option MessageOptions := none
deriving DecidableEq

structure DescriptorProto where
  Name : String
  Field : List FieldDescriptorProto := []
  NestedType : List NestedDescriptorProto := []
  EnumType : List EnumDescriptorProto := []
deriving DecidableEq

inductive HttpRulePattern where
  | get (path : String)
  | post (path : String)
  | put (path : String)
  | patch (path : String)
  | delete (path : String)
  | unset
deriving DecidableEq

structure HttpRule where
  Pattern : HttpRulePattern
  Body : String := emptyStr
deriving DecidableEq

/-- Method options; the only extension this program sets is the
`google.api.http` rule (`proto.SetExtension` never fails on it). -/
structure MethodOptions where
  Http : HttpRule
deriving DecidableEq

structure MethodDescriptorProto where
  Name : String
  InputType : String
  OutputType : String
  Options : MethodOptions
deriving DecidableEq

structure ServiceDescriptorProto where
  Name : String
  Method : List MethodDescriptorProto := []
deriving DecidableEq

structure FileDescriptorProto where
  Name : String
  Package : String := emptyStr
  SyntaxVer : String := emptyStr
  Dependency : List String := []
  MessageType : List DescriptorProto := []
  Service : List ServiceDescriptorProto := []
  Extension : List FieldDescriptorProto := []
deriving DecidableEq

structure FileDescriptorSet where
  File : List FileDescriptorProto
deriving DecidableEq

/-! ### Gnostic output document (only what `generator.go` reads) -/

/-- `openapiv3.Document`; only the version string is read (line 141).  The
zero value (a freshly allocated `&openapiv3.Document{}`) has every field
empty. -/
structure OpenAPIDocument where
  Openapi : String := emptyStr
deriving DecidableEq

def emptyOpenAPIDocument : OpenAPIDocument := {}

/-! ### The process-wide mutable state of the generator

`generator.go` keeps three package-level variables that persist for the whole
process and are shared by every (possibly recursive) run.  They are threaded
explicitly here.  `resolvedTrace` is ghost instrumentation, not present in
the Go program: it records, in order, each URL for which the external
resolver subprocess is actually invoked, so that theorems can speak about
"resolved at most once". -/

structure GenState where
  generatedSymbolicReferences : List String := []
  generatedMessages : List (String × String) := []
  shouldRenderEmptyImport : Bool := false
  resolvedTrace : List String := []
deriving DecidableEq

def initialGenState : GenState := {}

/-- Lookup in the `generatedMessages` map (newest binding wins, matching Go
map overwrite). -/
def lookupGenerated (m : List (String × String)) (k : String) : Option String :=
  (m.find? (fun p => decide (p.1 = k))).map (fun p => p.2)

/-! ### The generator, function by function -/

/-- `getProtobufTypes` / `protoBufScalarTypes`: the scalar-name table.  The
Go map is only ever used for keyed lookup, never iterated. -/
def protoBufScalarTypes (nativeType : String) : Option FieldType :=
  match nativeType with
  | "double" => some FieldType.TYPE_DOUBLE
  | "float" => some FieldType.TYPE_FLOAT
  | "int64" => some FieldType.TYPE_INT64
  | "uint64" => some FieldType.TYPE_UINT64
  | "int32" => some FieldType.TYPE_INT32
  | "fixed64" => some FieldType.TYPE_FIXED64
  | "fixed32" => some FieldType.TYPE_FIXED32
  | "bool" => some FieldType.TYPE_BOOL
  | "string" => some FieldType.TYPE_STRING
  | "bytes" => some FieldType.TYPE_BYTES
  | "uint32" => some FieldType.TYPE_UINT32
  | "sfixed32" => some FieldType.TYPE_SFIXED32
  | "sfixed64" => some FieldType.TYPE_SFIXED64
  | "sint32" => some FieldType.TYPE_SINT32
  | "sint64" => some FieldType.TYPE_SINT64
  | _ => none

/-- Go `int32(x)`: two's-complement truncation of an integer to 32 bits. -/
def wrap32 (x : Int) : Int :=
  let r := x % 4294967296
  if r < 2147483648 then r else r - 4294967296

/-- `getFieldDescriptorType` (generator.go 488-498). -/
def getFieldDescriptorType (nativeType : String) (enumValues : Option (List String)) :
    FieldType :=
  match protoBufScalarTypes nativeType with
  | some t => t
  | none =>
    match enumValues with
    | some _ => FieldType.TYPE_ENUM
    | none => FieldType.TYPE_MESSAGE

/-- The local `label` computed by `setFieldDescriptorLabel` (generator.go
387-390): REPEATED when the field kind is ARRAY or the native type contains
the substring `map`, OPTIONAL otherwise. -/
def fieldLabelGo (f : SField) : FieldLabel :=
  if f.Kind = FieldKind.ARRAY ∨ stringsContains f.NativeType mapMarker = true
  then FieldLabel.LABEL_REPEATED else FieldLabel.LABEL_OPTIONAL

/-- `setFieldDescriptorLabel` (generator.go 386-392). -/
def setFieldDescriptorLabel (fd : FieldDescriptorProto) (f : SField) :
    FieldDescriptorProto :=
  { fd with Label := some (fieldLabelGo f) }

/-- `setFieldDescriptorTypeName` (generator.go 397-411); reads the
`generatedMessages` registry. -/
def setFieldDescriptorTypeName (genMsgs : List (String × String))
    (fd : FieldDescriptorProto) (f : SField) (packageName : String) :
    FieldDescriptorProto :=
  match fd.Type' with
  | some FieldType.TYPE_MESSAGE =>
    { fd with
      TypeName := some
        (match lookupGenerated genMsgs f.NativeType with
         | some n => n
         | none => packageName ++ dotStr ++ f.NativeType) }
  | some FieldType.TYPE_ENUM => { fd with TypeName := some f.NativeType }
  | _ => fd

/-- The value loop of `buildEnumDescriptorProto`. -/
def enumValuesLoop : Nat → List String → List EnumValueDescriptorProto
  | _, [] => []
  | i, v :: rest =>
    { Name := stringToUpper v, Number := wrap32 (Int.ofNat i) } ::
      enumValuesLoop (i + 1) rest

/-- `buildEnumDescriptorProto` (generator.go 299-311). -/
def buildEnumDescriptorProto (f : SField) : EnumDescriptorProto :=
  { Name := f.NativeType, Value := enumValuesLoop 0 (f.EnumValues.getD []) }

/-- `getTypeNameForMapValueType` (generator.go 478-484). -/
def getTypeNameForMapValueType (valueType : String) : Option String :=
  match protoBufScalarTypes valueType with
  | some _ => none
  | none => some valueType

/-- `buildKeyValueFields` (generator.go 328-349).  `field.NativeType[11:]`
panics (here: `none`) when the native type is shorter than 11 bytes. -/
def buildKeyValueFields (field : SField) : Option (List FieldDescriptorProto) :=
  match goStringDropBytes field.NativeType 11 with
  | none => none
  | some valueType =>
    some
      [{ Name := some keyStr, Number := some 1,
         Label := some FieldLabel.LABEL_OPTIONAL,
         Type' := some FieldType.TYPE_STRING },
       { Name := some valueStr, Number := some 2,
         Label := some FieldLabel.LABEL_OPTIONAL,
         Type' := some (getFieldDescriptorType valueType field.EnumValues),
         TypeName := getTypeNameForMapValueType valueType }]

/-- `buildMapDescriptorProto` (generator.go 315-325). -/
def buildMapDescriptorProto (field : SField) : Option NestedDescriptorProto :=
  match buildKeyValueFields field with
  | none => none
  | some kv =>
    some { Name := field.FieldName ++ entrySuffix, Field := kv,
           Options := some { MapEntry := true } }

/-- `isRequestParameter` (generator.go 378-383).  It only guards the two
logging-only validators (`validatePathParameter`, `validateQueryParameter`),
which have no effect on the produced descriptors and are therefore not
modelled further. -/
def isRequestParameter (t : SType) : Bool :=
  stringsContains t.Description (t.Name ++ " holds parameters to")

/-- The body of the field loop of `buildMessagesFromTypes` (generator.go
219-251) for the field at declaration index `i`:  append a nested enum for
enum fields, build the field descriptor with number `int32(i+1)`, skip
unsupported map-of-array fields entirely, and expand map fields into a
nested map-entry message.  The error case is the string-index panic of
`buildKeyValueFields`. -/
def buildFieldStep (pkg : String) (genMsgs : List (String × String))
    (acc : DescriptorProto) (i : Nat) (f : SField) :
    Except String DescriptorProto :=
  let acc :=
    match f.EnumValues with
    | some _ => { acc with EnumType := acc.EnumType ++ [buildEnumDescriptorProto f] }
    | none => acc
  let ctr : Int := wrap32 (Int.ofNat i + 1)
  let fd0 : FieldDescriptorProto := { Number := some ctr, Name := some f.FieldName }
  let fd1 := { fd0 with Type' := some (getFieldDescriptorType f.NativeType f.EnumValues) }
  let fd2 := setFieldDescriptorLabel fd1 f
  let fd3 := setFieldDescriptorTypeName genMsgs fd2 f pkg
  if f.Kind = FieldKind.MAP then
    if stringsContains f.NativeType mapOfArrayMarker = true then
      .ok acc
    else
      match buildMapDescriptorProto f with
      | none => .error panicStringIndexMsg
      | some mapDP =>
        .ok { acc with
              NestedType := acc.NestedType ++ [mapDP],
              Field := acc.Field ++ [{ fd3 with TypeName := some mapDP.Name }] }
  else
    .ok { acc with Field := acc.Field ++ [fd3] }

/-- The field loop of `buildMessagesFromTypes`, iterating `buildFieldStep`
over the fields with their declaration indices. -/
def buildFields (pkg : String) (genMsgs : List (String × String)) :
    Nat → DescriptorProto → List SField → Except String DescriptorProto
  | _, acc, [] => .ok acc
  | i, acc, f :: rest =>
    match buildFieldStep pkg genMsgs acc i f with
    | .error e => .error e
    | .ok acc' => buildFields pkg genMsgs (i + 1) acc' rest

/-- One iteration of the type loop of `buildMessagesFromTypes`: the message
built for `t`. -/
def messageFromType (pkg : String) (genMsgs : List (String × String)) (t : SType) :
    Except String DescriptorProto :=
  buildFields pkg genMsgs 0 { Name := t.TypeName } t.Fields

/-- `buildMessagesFromTypes` (generator.go 214-256): build one message per
surface type, registering each built message in `generatedMessages`. -/
def buildMessagesFromTypes (pkg : String) :
    List SType → GenState → Except String (List DescriptorProto × GenState)
  | [], st => .ok ([], st)
  | t :: rest, st =>
    match messageFromType pkg st.generatedMessages t with
    | .error e => .error e
    | .ok message =>
      let st' := { st with
        generatedMessages :=
          (t.TypeName, pkg ++ dotStr ++ t.TypeName) :: st.generatedMessages }
      match buildMessagesFromTypes pkg rest st' with
      | .error e => .error e
      | .ok (msgs, st'') => .ok (message :: msgs, st'')

/-- `getRequestBodyForRequestParameters` (generator.go 415-430): the last
type named `name` (or the zero type), then its first BODY field. -/
def getRequestBodyForRequestParameters (name : String) (types : List SType) :
    Option String :=
  let requestParameterType :=
    types.foldl (fun acc t => if t.Name = name then t else acc)
      { TypeName := emptyStr }
  match requestParameterType.Fields.find?
      (fun f => decide (f.Position = SPosition.BODY)) with
  | some f => some f.FieldName
  | none => none

/-- `getHttpRuleForMethod` (generator.go 434-474). -/
def getHttpRuleForMethod (method : SMethod) (body : Option String) : HttpRule :=
  let pattern :=
    match method.Method with
    | "GET" => HttpRulePattern.get method.Path
    | "POST" => HttpRulePattern.post method.Path
    | "PUT" => HttpRulePattern.put method.Path
    | "PATCH" => HttpRulePattern.patch method.Path
    | "DELETE" => HttpRulePattern.delete method.Path
    | _ => HttpRulePattern.unset
  { Pattern := pattern,
    Body := match body with | some b => b | none => emptyStr }

/-- The candidate names tried by `findValidServiceName`, in order: the base
name, then `<base>Service`, then `<base>Service1`, `<base>Service2`, ... -/
def serviceNameCandidate (serviceName : String) : Nat → String
  | 0 => serviceName
  | 1 => serviceName ++ serviceSuffix
  | n + 2 => serviceName ++ serviceSuffix ++ itoa (n + 1)

/-- The search loop of `findValidServiceName` (generator.go 574-583), with
fuel standing for the unbounded Go `for` loop; the fuel chosen by
`findValidServiceName` is provably never exhausted. -/
def findValidServiceNameLoop (names : List String) (serviceName : String) :
    Nat → String → Nat → String
  | 0, validServiceName, _ => validServiceName
  | fuel + 1, validServiceName, ctr =>
    if validServiceName ∈ names then
      let next :=
        serviceName ++ serviceSuffix ++ (if ctr > 0 then itoa ctr else emptyStr)
      findValidServiceNameLoop names serviceName fuel next (ctr + 1)
    else validServiceName

/-- `findValidServiceName` (generator.go 565-584). -/
def findValidServiceName (messages : List DescriptorProto) (serviceName : String) :
    String :=
  let messageNames := messages.map (fun m => m.Name)
  findValidServiceNameLoop messageNames serviceName
    (messageNames.length + 2) serviceName 0

/-- The method loop of `buildServiceFromMethods` (generator.go 269-294):
build one method descriptor per surface method, substituting
`google.protobuf.Empty` for empty parameter/response type names and raising
`shouldRenderEmptyImport` when the substitution happens. -/
def serviceMethodsLoop (types : List SType) :
    List SMethod → GenState → List MethodDescriptorProto × GenState
  | [], st => ([], st)
  | m :: rest, st =>
    let requestBody := getRequestBodyForRequestParameters m.ParametersTypeName types
    let httpRule := getHttpRuleForMethod m requestBody
    let (inputType, st1) :=
      if m.ParametersTypeName = emptyStr then
        (googleProtobufEmptyTypeName, { st with shouldRenderEmptyImport := true })
      else (m.ParametersTypeName, st)
    let (outputType, st2) :=
      if m.ResponsesTypeName = emptyStr then
        (googleProtobufEmptyTypeName, { st1 with shouldRenderEmptyImport := true })
      else (m.ResponsesTypeName, st1)
    let mDescr : MethodDescriptorProto :=
      { Name := m.HandlerName, InputType := inputType, OutputType := outputType,
        Options := { Http := httpRule } }
    let (others, st3) := serviceMethodsLoop types rest st2
    (mDescr :: others, st3)

/-- `buildServiceFromMethods` (generator.go 260-296): the service descriptor
placed into the main proto, and the updated state. -/
def buildServiceFromMethods (pkg : String) (model : SModel)
    (messageTypes : List DescriptorProto) (st : GenState) :
    ServiceDescriptorProto × GenState :=
  let serviceName := findValidServiceName messageTypes (titleCase pkg)
  let (methodDescrs, st') := serviceMethodsLoop model.Types model.Methods st
  ({ Name := serviceName, Method := methodDescrs }, st')

/-- The `http` extension field synthesized by `buildDependencies`
(generator.go 180-194); `annotations.E_Http.Field` is 72295728. -/
def httpExtensionField : FieldDescriptorProto :=
  { Name := some httpStr, Number := some 72295728,
    Label := some FieldLabel.LABEL_OPTIONAL,
    Type' := some FieldType.TYPE_MESSAGE,
    TypeName := some httpRuleTypeName,
    Extendee := some methodOptionsExtendee }

/-- The patched `google/api/annotations.proto` file descriptor built
reflectively by `buildDependencies` (generator.go 177-198).  The reflective
message content of the well-known file is external library data and is not
inspected by the program, so it is elided; the name, the appended dependency
and the patched-in extension are represented. -/
def annotationsFileDescr : FileDescriptorProto :=
  { Name := annotationsProtoFileName,
    Dependency := [descriptorProtoFileName],
    Extension := [httpExtensionField] }

/-- The `google/protobuf/empty.proto` file descriptor (generator.go 201-203);
reflective content elided as above. -/
def emptyFileDescr : FileDescriptorProto :=
  { Name := emptyProtoFileName }

/-- The `google/protobuf/descriptor.proto` file descriptor (generator.go
202-204); reflective content elided as above. -/
def descriptorFileDescr : FileDescriptorProto :=
  { Name := descriptorProtoFileName }

def dependencyFiles : List FileDescriptorProto :=
  [annotationsFileDescr, emptyFileDescr, descriptorFileDescr]

/-- `buildDependencies` (generator.go 170-210): prepend the three foundation
file descriptors to the set. -/
def buildDependencies (files : List FileDescriptorProto) : List FileDescriptorProto :=
  dependencyFiles ++ files

/-- `isDuplicate` (generator.go 526-533). -/
def isDuplicate (ss : List String) (s : String) : Bool :=
  ss.any (fun s2 => decide (s = s2))

/-- The accumulator loop of `trimAndRemoveDuplicates`. -/
def trimAndRemoveDuplicatesLoop : List String → List String → List String
  | acc, [] => acc
  | acc, url :: rest =>
    let t := trimFragment url
    if isDuplicate acc t = true then trimAndRemoveDuplicatesLoop acc rest
    else trimAndRemoveDuplicatesLoop (acc ++ [t]) rest

/-- `trimAndRemoveDuplicates` (generator.go 514-523). -/
def trimAndRemoveDuplicates (urls : List String) : List String :=
  trimAndRemoveDuplicatesLoop [] urls

/-- The dependency-name collection loop of `addDependencies` (generator.go
94-104), over every file of the set other than the target (the Go loop skips
the target by pointer identity; the target pointer occurs exactly once, as
the last element, so this is the list of all non-last files).  Files named
`google/protobuf/empty.proto` are listed only when `shouldRenderEmptyImport`
is set. -/
def collectDependencyNames (flag : Bool) :
    List FileDescriptorProto → List String → List String
  | [], acc => acc
  | fd :: rest, acc =>
    if fd.Name = emptyProtoFileName then
      if flag then collectDependencyNames flag rest (acc ++ [fd.Name])
      else collectDependencyNames flag rest acc
    else collectDependencyNames flag rest (acc ++ [fd.Name])

/-- `addDependencies` (generator.go 91-107), applied to the target (last)
file descriptor given the other files of the set: append the collected
names to its dependency list and sort it. -/
def addDependencies (flag : Bool) (others : List FileDescriptorProto)
    (lastFdProto : FileDescriptorProto) : FileDescriptorProto :=
  { lastFdProto with
    Dependency := sortStrings (collectDependencyNames flag others lastFdProto.Dependency) }

/-- The `mainProto` initialized by `runFileDescriptorSetGenerator`
(generator.go 55-63). -/
def initialMainProto (package : String) : FileDescriptorProto :=
  { Name := package ++ protoExt, Package := package, SyntaxVer := proto3Str }

/-- The external document-resolution collaborator: URL to prepared surface
model.  Modelled from the spec: it abstracts the `gnostic` subprocess
invocation, the document decoding, `surface_v1.NewModelFromOpenAPI3` and
`NewProtoLanguageModel().Prepare` (generator.go 121-144), none of which are
part of this package's sources; any failure in that chain aborts the run. -/
def Resolver : Type := String → Except String SModel

/-- The reference loop of `buildSymbolicReferences` (generator.go 116-159),
parameterized by the recursive generator call `recur`.  Returns the symbolic
file descriptors to prepend, the nested descriptor sets accumulated into
`renderer.SymbolicFdSets`, and the final state. -/
def symRefLoop (resolve : Resolver)
    (recur : String → SModel → GenState →
      Except String (FileDescriptorSet × List FileDescriptorSet × GenState)) :
    List String → GenState →
      Except String (List FileDescriptorProto × List FileDescriptorSet × GenState)
  | [], st => .ok ([], [], st)
  | ref :: rest, st =>
    if ref ∈ st.generatedSymbolicReferences then symRefLoop resolve recur rest st
    else
      let st1 : GenState :=
        { st with
          generatedSymbolicReferences := ref :: st.generatedSymbolicReferences,
          resolvedTrace := st.resolvedTrace ++ [ref] }
      match resolve ref with
      | .error e => .error e
      | .ok surfaceModel =>
        let fileName := pathBase ref
        let pkg := trimSuffix fileName (filepathExt fileName)
        match recur pkg surfaceModel st1 with
        | .error e => .error e
        | .ok (newFdSet, _, st2) =>
          match newFdSet.File.getLast? with
          | none => .error panicEmptySetMsg
          | some symbolicProto =>
            match symRefLoop resolve recur rest st2 with
            | .error e => .error e
            | .ok (protos, sets, st3) =>
              .ok (symbolicProto :: protos, newFdSet :: sets, st3)

/-- `runFileDescriptorSetGenerator` (generator.go 54-87) together with
`buildSymbolicReferences` (111-163): the whole pipeline for one document.
`fuel` bounds the recursion depth of symbolic-reference resolution (the Go
program recurses unboundedly; every theorem below is about successful runs).
Returns the final descriptor set, `renderer.SymbolicFdSets`, and the final
state.  The Go functions mutate `mainProto` in place; since `mainProto` is
the last element of the set at every stage (the other builders only prepend),
it is threaded separately here and re-attached as the last element. -/
def runGenerator (resolve : Resolver) :
    Nat → String → SModel → GenState →
      Except String (FileDescriptorSet × List FileDescriptorSet × GenState)
  | 0, _, _, _ => .error outOfFuelMsg
  | fuel + 1, package, model, st =>
    let mainProto := initialMainProto package
    let files1 := buildDependencies [mainProto]
    match symRefLoop resolve
        (fun p m s => runGenerator resolve fuel p m s)
        (trimAndRemoveDuplicates model.SymbolicReferences) st with
    | .error e => .error e
    | .ok (symProtos, symSets, st1) =>
      let files2 := symProtos ++ files1
      match buildMessagesFromTypes package model.Types st1 with
      | .error e => .error e
      | .ok (msgs, st2) =>
        let mainProto1 := { mainProto with MessageType := msgs }
        let (service, st3) :=
          buildServiceFromMethods package model mainProto1.MessageType st2
        let mainProto2 := { mainProto1 with Service := [service] }
        let others := files2.dropLast
        let mainProto3 := addDependencies st3.shouldRenderEmptyImport others mainProto2
        .ok (⟨others ++ [mainProto3]⟩, symSets, st3)

/-- `createOpenAPIDocFromGnosticOutput` (generator.go 501-511).  The call to
`proto.Unmarshal` belongs to an external library; its outcome is supplied as
arguments: the document it leaves behind (for the collaborator's empty
output that is the freshly allocated empty document) and its optional error
message.  The Go function tolerates exactly the `unexpected EOF` error and
returns every other error. -/
def createOpenAPIDocFromGnosticOutput (unmarshalled : OpenAPIDocument)
    (unmarshalErr : Option String) : Except String OpenAPIDocument :=
  match unmarshalErr with
  | some e => if e ≠ unexpectedEOFMsg then .error e else .ok unmarshalled
  | none => .ok unmarshalled

/-! ## Basic facts about the embedded primitives -/

theorem string_data_append (a b : String) : (a ++ b).data = a.data ++ b.data := by
  cases a; cases b; rfl

theorem string_ext {a b : String} (h : a.data = b.data) : a = b :=
  congrArg String.mk h

/-- Every rune occupies at least one UTF-8 byte. -/
theorem one_le_utf8Size (c : Char) : 1 ≤ c.utf8Size := by
  simp only [Char.utf8Size]
  split_ifs <;> omega

/-- Dropping exactly the bytes of a leading block of runes leaves the rest. -/
theorem goByteDropList_append (p cs : List Char) :
    goByteDropList (p ++ cs) ((p.map Char.utf8Size).sum) = some cs := by
  induction p with
  | nil => simp [goByteDropList]
  | cons c p ih =>
    have hpos := one_le_utf8Size c
    obtain ⟨k, hk⟩ : ∃ k, ((c :: p).map Char.utf8Size).sum = k + 1 :=
      ⟨((c :: p).map Char.utf8Size).sum - 1, by simp; omega⟩
    rw [hk]
    show goByteDropList (c :: (p ++ cs)) (k + 1) = some cs
    simp only [goByteDropList]
    rw [if_pos (by simp at hk; omega : c.utf8Size ≤ k + 1)]
    have h2 : k + 1 - c.utf8Size = (p.map Char.utf8Size).sum := by simp at hk; omega
    rw [h2]
    exact ih

/-- Dropping more bytes than the string has panics. -/
theorem goByteDropList_short (cs : List Char) :
    ∀ n, (cs.map Char.utf8Size).sum < n → goByteDropList cs n = none := by
  induction cs with
  | nil =>
    intro n hn
    match n, hn with
    | n + 1, _ => rfl
  | cons c cs ih =>
    intro n hn
    have hpos := one_le_utf8Size c
    have hsum : ((c :: cs).map Char.utf8Size).sum = c.utf8Size + (cs.map Char.utf8Size).sum := by
      simp
    match n, hn with
    | n + 1, hn =>
      simp only [goByteDropList]
      by_cases hle : c.utf8Size ≤ n + 1
      · rw [if_pos hle]
        exact ih (n + 1 - c.utf8Size) (by omega)
      · rw [if_neg hle]

theorem isDuplicate_iff (ss : List String) (s : String) :
    isDuplicate ss s = true ↔ s ∈ ss := by
  simp only [isDuplicate, List.any_eq_true, decide_eq_true_eq]
  constructor
  · rintro ⟨x, hx, rfl⟩
    exact hx
  · intro h
    exact ⟨s, h, rfl⟩

/-! ## C9 and C10 -/

/-- C9: decoding the collaborator's binary output is tolerant of exactly the
unexpected-end-of-input error: decoding success and the `unexpected EOF`
failure both yield a successfully returned document (for the collaborator's
empty output, the freshly allocated empty document), while every other
decode error is returned as the run-aborting error itself. -/
theorem c9_decode_error_tolerance (doc : OpenAPIDocument) (e : String) :
    createOpenAPIDocFromGnosticOutput doc none = .ok doc ∧
    createOpenAPIDocFromGnosticOutput doc (some unexpectedEOFMsg) = .ok doc ∧
    createOpenAPIDocFromGnosticOutput emptyOpenAPIDocument (some unexpectedEOFMsg) =
      .ok emptyOpenAPIDocument ∧
    (e ≠ unexpectedEOFMsg →
      createOpenAPIDocFromGnosticOutput doc (some e) = .error e) := by
  refine ⟨rfl, ?_, ?_, ?_⟩
  · show (if unexpectedEOFMsg ≠ unexpectedEOFMsg then Except.error unexpectedEOFMsg
          else Except.ok doc) = Except.ok doc
    rw [if_neg (fun h => h rfl)]
  · show (if unexpectedEOFMsg ≠ unexpectedEOFMsg then Except.error unexpectedEOFMsg
          else Except.ok emptyOpenAPIDocument) = Except.ok emptyOpenAPIDocument
    rw [if_neg (fun h => h rfl)]
  · intro h
    show (if e ≠ unexpectedEOFMsg then Except.error e else Except.ok doc) =
      Except.error e
    rw [if_pos h]

def eMsgDemo : String := "proto: cannot parse invalid wire-format data"

theorem c9_decode_error_tolerance_witness :
    createOpenAPIDocFromGnosticOutput emptyOpenAPIDocument (some eMsgDemo) =
      .error eMsgDemo :=
  (c9_decode_error_tolerance emptyOpenAPIDocument eMsgDemo).2.2.2 (by decide)

def boolTypeDemo : String := "bool"
def shortMapTypeDemo : String := "map[int]"

/-- C10: the map value type is `NativeType[11:]` (a byte-based slice).  When
the native type is `map[string]` followed by anything, the slice is in
bounds and yields exactly that remainder as the value type of the `value`
field; the prefix `map[string]` is exactly 11 bytes; and for any native type
shorter than 11 bytes the slice is out of range, so the key/value
construction is undefined (modelled as `none`, which aborts the message
builder like the Go panic would abort the run). -/
theorem c10_map_value_slice (f : SField) (rest : String) :
    (f.NativeType = mapStringMarker ++ rest →
      buildKeyValueFields f = some
        [{ Name := some keyStr, Number := some 1,
           Label := some FieldLabel.LABEL_OPTIONAL,
           Type' := some FieldType.TYPE_STRING },
         { Name := some valueStr, Number := some 2,
           Label := some FieldLabel.LABEL_OPTIONAL,
           Type' := some (getFieldDescriptorType rest f.EnumValues),
           TypeName := getTypeNameForMapValueType rest }]) ∧
    (goStringLen f.NativeType < 11 → buildKeyValueFields f = none) ∧
    goStringLen mapStringMarker = 11 := by
  refine ⟨?_, ?_, by decide⟩
  · intro h
    have hdata : f.NativeType.data = mapStringMarker.data ++ rest.data := by
      rw [h, string_data_append]
    have hdrop : goStringDropBytes f.NativeType 11 = some rest := by
      have h11 : (mapStringMarker.data.map Char.utf8Size).sum = 11 := by decide
      have hb := goByteDropList_append mapStringMarker.data rest.data
      rw [h11] at hb
      simp [goStringDropBytes, hdata, hb]
    simp [buildKeyValueFields, hdrop]
  · intro h
    have hdrop : goStringDropBytes f.NativeType 11 = none := by
      have hb := goByteDropList_short f.NativeType.data 11 h
      simp [goStringDropBytes, hb]
    simp [buildKeyValueFields, hdrop]

theorem c10_map_value_slice_witness :
    buildKeyValueFields
        { FieldName := keyStr, NativeType := mapStringMarker ++ boolTypeDemo,
          Kind := FieldKind.MAP } =
      some
        [{ Name := some keyStr, Number := some 1,
           Label := some FieldLabel.LABEL_OPTIONAL,
           Type' := some FieldType.TYPE_STRING },
         { Name := some valueStr, Number := some 2,
           Label := some FieldLabel.LABEL_OPTIONAL,
           Type' := some FieldType.TYPE_BOOL, TypeName := none }] ∧
    buildKeyValueFields
        { FieldName := keyStr, NativeType := shortMapTypeDemo,
          Kind := FieldKind.MAP } = none := by
  constructor
  · have h := (c10_map_value_slice
      { FieldName := keyStr, NativeType := mapStringMarker ++ boolTypeDemo,
        Kind := FieldKind.MAP } boolTypeDemo).1 rfl
    rw [h]
    decide
  · exact (c10_map_value_slice
      { FieldName := keyStr, NativeType := shortMapTypeDemo,
        Kind := FieldKind.MAP } emptyStr).2.1 (by decide)

/-! ## The field loop of the message builder (C1, C7, C8) -/

/-- A field the message builder omits entirely: a MAP field whose native
type is a map of arrays (generator.go 241-245). -/
def skippedField (f : SField) : Bool :=
  decide (f.Kind = FieldKind.MAP) && stringsContains f.NativeType mapOfArrayMarker

theorem setFieldDescriptorTypeName_shape (genMsgs : List (String × String))
    (fd : FieldDescriptorProto) (f : SField) (pkg : String) :
    ∃ tn, setFieldDescriptorTypeName genMsgs fd f pkg = { fd with TypeName := tn } := by
  obtain ⟨n0, num0, lab0, ty0, tn0, ex0⟩ := fd
  cases ty0 with
  | none => exact ⟨tn0, rfl⟩
  | some t => cases t <;> exact ⟨_, rfl⟩

/-- Each non-skipped field appends exactly one field descriptor, numbered
`int32(i+1)` and labelled by `fieldLabelGo`; a skipped field appends
nothing. -/
theorem buildFieldStep_field (pkg : String) (genMsgs : List (String × String))
    (acc : DescriptorProto) (i : Nat) (f : SField) (acc' : DescriptorProto)
    (h : buildFieldStep pkg genMsgs acc i f = .ok acc') :
    (skippedField f = true ∧ acc'.Field = acc.Field) ∨
    (skippedField f = false ∧ ∃ tn,
      acc'.Field = acc.Field ++
        [{ Name := some f.FieldName, Number := some (wrap32 (Int.ofNat i + 1)),
           Label := some (fieldLabelGo f),
           Type' := some (getFieldDescriptorType f.NativeType f.EnumValues),
           TypeName := tn }]) := by
  obtain ⟨tn3, hfd3⟩ := setFieldDescriptorTypeName_shape genMsgs
    (setFieldDescriptorLabel
      { Number := some (wrap32 (Int.ofNat i + 1)), Name := some f.FieldName,
        Type' := some (getFieldDescriptorType f.NativeType f.EnumValues) } f) f pkg
  simp only [buildFieldStep] at h
  rw [hfd3] at h
  by_cases hk : f.Kind = FieldKind.MAP
  · rw [if_pos hk] at h
    by_cases hc : stringsContains f.NativeType mapOfArrayMarker = true
    · rw [if_pos hc] at h
      left
      cases hev : f.EnumValues <;> rw [hev] at h <;>
        simp only [Except.ok.injEq] at h <;> subst h
      · exact ⟨by simp [skippedField, hk, hc], rfl⟩
      · exact ⟨by simp [skippedField, hk, hc], rfl⟩
    · rw [if_neg hc] at h
      right
      refine ⟨by simp [skippedField, hc], ?_⟩
      cases hmdp : buildMapDescriptorProto f with
      | none =>
        rw [hmdp] at h
        cases hev : f.EnumValues <;> rw [hev] at h <;> cases h
      | some mapDP =>
        rw [hmdp] at h
        cases hev : f.EnumValues <;> rw [hev] at h <;>
          simp only [Except.ok.injEq] at h <;> subst h <;>
          exact ⟨some mapDP.Name, rfl⟩
  · rw [if_neg hk] at h
    right
    refine ⟨by simp [skippedField, hk], ?_⟩
    cases hev : f.EnumValues <;> rw [hev] at h <;>
      simp only [Except.ok.injEq] at h <;> subst h <;> exact ⟨tn3, rfl⟩

/-- The (number, label) pairs the field loop produces for the fields `fs`
starting at declaration index `i`: skipped fields produce nothing but still
advance the index. -/
def builtNumberLabels : Nat → List SField → List (Option Int × Option FieldLabel)
  | _, [] => []
  | i, f :: rest =>
    if skippedField f = true then builtNumberLabels (i + 1) rest
    else (some (wrap32 (Int.ofNat i + 1)), some (fieldLabelGo f)) ::
      builtNumberLabels (i + 1) rest

theorem buildFields_numbers_labels (pkg : String) (genMsgs : List (String × String)) :
    ∀ (fs : List SField) (i : Nat) (acc msg : DescriptorProto),
      buildFields pkg genMsgs i acc fs = .ok msg →
      msg.Field.map (fun fd => (fd.Number, fd.Label)) =
        acc.Field.map (fun fd => (fd.Number, fd.Label)) ++ builtNumberLabels i fs := by
  intro fs
  induction fs with
  | nil =>
    intro i acc msg h
    simp only [buildFields] at h
    cases h
    simp [builtNumberLabels]
  | cons f rest ih =>
    intro i acc msg h
    cases hstep : buildFieldStep pkg genMsgs acc i f with
    | error e =>
      simp only [buildFields] at h
      rw [hstep] at h
      cases h
    | ok acc' =>
      simp only [buildFields] at h
      rw [hstep] at h
      have hrest := ih (i + 1) acc' msg h
      rcases buildFieldStep_field pkg genMsgs acc i f acc' hstep with
        ⟨hsk, hfe⟩ | ⟨hsk, tn, hfe⟩
      · rw [hrest, hfe]
        simp [builtNumberLabels, hsk]
      · rw [hrest, hfe]
        simp [builtNumberLabels, hsk]

theorem builtNumberLabels_snd :
    ∀ (fs : List SField) (i : Nat),
      (builtNumberLabels i fs).map (fun p => p.2) =
        (fs.filter (fun f => !(skippedField f))).map (fun f => some (fieldLabelGo f)) := by
  intro fs
  induction fs with
  | nil => intro i; rfl
  | cons f rest ih =>
    intro i
    by_cases hsk : skippedField f = true
    · simp [builtNumberLabels, hsk, ih (i + 1)]
    · simp only [Bool.not_eq_true] at hsk
      simp [builtNumberLabels, hsk, ih (i + 1)]

theorem builtNumberLabels_fst_noskip :
    ∀ (fs : List SField) (i : Nat), (∀ f ∈ fs, skippedField f = false) →
      (builtNumberLabels i fs).map (fun p => p.1) =
        (List.range fs.length).map (fun k => some (wrap32 (Int.ofNat (i + k) + 1))) := by
  intro fs
  induction fs with
  | nil => intro i _; rfl
  | cons f rest ih =>
    intro i hns
    have hf : skippedField f = false := hns f (by simp)
    have hrest := ih (i + 1) (fun g hg => hns g (by simp [hg]))
    simp only [builtNumberLabels, hf, Bool.false_eq_true, if_false, List.map_cons,
      List.length_cons, List.range_succ_eq_map, List.map_map]
    refine congrArg₂ _ (by simp) ?_
    rw [hrest]
    refine List.map_congr_left ?_
    intro k _
    simp only [Function.comp_apply]
    have hik : i + 1 + k = i + Nat.succ k := by omega
    rw [hik]

theorem wrap32_small (x : Int) (h0 : 0 ≤ x) (h1 : x < 2147483648) : wrap32 x = x := by
  unfold wrap32
  have hx : x % 4294967296 = x := Int.emod_eq_of_lt h0 (by omega)
  rw [hx]
  exact if_pos h1

/-! ## C8: map fields of declared type map[string]int32 -/

def pkgDemo : String := "pkg"
def mapStringInt32Str : String := "map[string]int32"

/-- C8: a MAP-kind field of declared type `map[string]int32` produces the
nested entry message `<FieldName>Entry` with exactly the two fields `key`
(string, number 1) and `value` (number 2, the scalar mapping of `int32`, no
type name), marked as a map entry; the owning field descriptor is labelled
REPEATED and its type name points at the nested entry message. -/
theorem c8_map_entry_message (pkg : String) (genMsgs : List (String × String))
    (acc : DescriptorProto) (i : Nat) (f : SField)
    (hk : f.Kind = FieldKind.MAP) (hn : f.NativeType = mapStringInt32Str)
    (he : f.EnumValues = none) :
    buildMapDescriptorProto f = some
      { Name := f.FieldName ++ entrySuffix,
        Field := [{ Name := some keyStr, Number := some 1,
                    Label := some FieldLabel.LABEL_OPTIONAL,
                    Type' := some FieldType.TYPE_STRING },
                  { Name := some valueStr, Number := some 2,
                    Label := some FieldLabel.LABEL_OPTIONAL,
                    Type' := some FieldType.TYPE_INT32, TypeName := none }],
        Options := some { MapEntry := true } } ∧
    buildFieldStep pkg genMsgs acc i f = .ok
      { acc with
        NestedType := acc.NestedType ++
          [{ Name := f.FieldName ++ entrySuffix,
             Field := [{ Name := some keyStr, Number := some 1,
                         Label := some FieldLabel.LABEL_OPTIONAL,
                         Type' := some FieldType.TYPE_STRING },
                       { Name := some valueStr, Number := some 2,
                         Label := some FieldLabel.LABEL_OPTIONAL,
                         Type' := some FieldType.TYPE_INT32, TypeName := none }],
             Options := some { MapEntry := true } }],
        Field := acc.Field ++
          [{ Name := some f.FieldName, Number := some (wrap32 (Int.ofNat i + 1)),
             Label := some FieldLabel.LABEL_REPEATED,
             Type' := some FieldType.TYPE_MESSAGE,
             TypeName := some (f.FieldName ++ entrySuffix) }] } := by
  obtain ⟨fn, nm, nt, kd, pos, ev⟩ := f
  simp only at hk hn he
  subst hk hn he
  exact ⟨rfl, rfl⟩

def attrsStr : String := "attrs"
def msgMStr : String := "M"

def attrsFieldDemo : SField :=
  { FieldName := attrsStr, NativeType := mapStringInt32Str, Kind := FieldKind.MAP }

theorem c8_map_entry_message_witness :
    buildFieldStep pkgDemo [] { Name := msgMStr } 0 attrsFieldDemo = .ok
      { Name := msgMStr,
        NestedType :=
          [{ Name := attrsStr ++ entrySuffix,
             Field := [{ Name := some keyStr, Number := some 1,
                         Label := some FieldLabel.LABEL_OPTIONAL,
                         Type' := some FieldType.TYPE_STRING },
                       { Name := some valueStr, Number := some 2,
                         Label := some FieldLabel.LABEL_OPTIONAL,
                         Type' := some FieldType.TYPE_INT32, TypeName := none }],
             Options := some { MapEntry := true } }],
        Field :=
          [{ Name := some attrsStr, Number := some (wrap32 (Int.ofNat 0 + 1)),
             Label := some FieldLabel.LABEL_REPEATED,
             Type' := some FieldType.TYPE_MESSAGE,
             TypeName := some (attrsStr ++ entrySuffix) }] } :=
  (c8_map_entry_message pkgDemo [] { Name := msgMStr } 0 attrsFieldDemo
    rfl rfl rfl).2

/-! ## C1: field numbers -/

def mapStringArrayInt32Str : String := "map[string][]int32"
def int32TypeStr : String := "int32"
def fieldMStr : String := "m"
def fieldSStr : String := "s"
def typeTStr : String := "T"

def mapOfArrayFieldDemo : SField :=
  { FieldName := fieldMStr, NativeType := mapStringArrayInt32Str, Kind := FieldKind.MAP }

def scalarFieldDemo : SField :=
  { FieldName := fieldSStr, NativeType := int32TypeStr, Kind := FieldKind.SCALAR }

def typeWithSkipDemo : SType :=
  { TypeName := typeTStr, Fields := [mapOfArrayFieldDemo, scalarFieldDemo] }

/-- C1 (counterexample): for a type whose first declared field is an
unsupported map-of-array field (omitted from the message) followed by a
scalar field, the built message has a single field descriptor whose number
is 2 — not the contiguous `1..n` (here `[1]`) the claim requires. -/
theorem c1_counterexample :
    (messageFromType pkgDemo [] typeWithSkipDemo).toOption.map
        (fun m => (m.Field.map (fun fd => fd.Number), m.Field.length)) =
      some ([some 2], 1) ∧
    ¬ ([(some 2 : Option Int)] =
        (List.range 1).map (fun (k : Nat) => some ((k : Int) + 1))) := by
  constructor
  · rfl
  · decide

/-- C1 (amended): each field descriptor is numbered `1 +` the declaration
index of its source field, so when no declared field is skipped (no
map-of-array field) and the type has fewer than `2^31` fields, the field
numbers are exactly `1..n` in declaration order, where `n` is the number of
field descriptors of the message (which then equals the declared field
count).  When a field is skipped, the numbers of the later descriptors keep
their declaration positions, leaving a gap. -/
theorem c1_field_numbers (pkg : String) (genMsgs : List (String × String))
    (t : SType) (msg : DescriptorProto)
    (h : messageFromType pkg genMsgs t = .ok msg)
    (hns : ∀ f ∈ t.Fields, skippedField f = false)
    (hlen : t.Fields.length < 2147483648) :
    msg.Field.length = t.Fields.length ∧
    msg.Field.map (fun fd => fd.Number) =
      (List.range msg.Field.length).map (fun (k : Nat) => some ((k : Int) + 1)) := by
  have hpairs := buildFields_numbers_labels pkg genMsgs t.Fields 0
    { Name := t.TypeName } msg h
  simp only [List.map_nil, List.nil_append] at hpairs
  have hfst : msg.Field.map (fun fd => fd.Number) =
      (builtNumberLabels 0 t.Fields).map (fun p => p.1) := by
    rw [← hpairs, List.map_map]
    rfl
  have hnum := builtNumberLabels_fst_noskip t.Fields 0 hns
  have hlen2 : msg.Field.length = t.Fields.length := by
    have h1 : (msg.Field.map (fun fd => fd.Number)).length =
        ((List.range t.Fields.length).map
          (fun k => some (wrap32 (Int.ofNat (0 + k) + 1)))).length := by
      rw [hfst, hnum]
    simpa using h1
  refine ⟨hlen2, ?_⟩
  rw [hfst, hnum, hlen2]
  refine List.map_congr_left ?_
  intro k hk
  have hklt : k < t.Fields.length := List.mem_range.mp hk
  have hof : Int.ofNat (0 + k) = (k : Int) := by simp
  rw [hof]
  have hw : wrap32 ((k : Int) + 1) = (k : Int) + 1 :=
    wrap32_small _ (by omega) (by omega)
  rw [hw]

def c1WitnessType : SType :=
  { TypeName := typeTStr, Fields := [scalarFieldDemo, scalarFieldDemo] }

def c1WitnessMsg : DescriptorProto :=
  match messageFromType pkgDemo [] c1WitnessType with
  | .ok m => m
  | .error _ => { Name := emptyStr }

theorem c1_field_numbers_witness :
    c1WitnessMsg.Field.length = c1WitnessType.Fields.length ∧
    c1WitnessMsg.Field.map (fun fd => fd.Number) =
      (List.range c1WitnessMsg.Field.length).map (fun (k : Nat) => some ((k : Int) + 1)) :=
  c1_field_numbers pkgDemo [] c1WitnessType c1WitnessMsg rfl (by decide) (by decide)

/-! ## C7: the repetition label -/

/-- Modelled from the spec claim's words: a declared (native) type "denotes
a map" when it has the Go map-type form the generator itself uses for map
fields, i.e. it starts with `map[string]`. -/
def nativeTypeDenotesMap (s : String) : Bool :=
  listIsPrefixOf mapStringMarker.data s.data

def sitemapStr : String := "Sitemap"
def siteFieldStr : String := "site"
def typeWStr : String := "Widget"

def sitemapFieldDemo : SField :=
  { FieldName := siteFieldStr, NativeType := sitemapStr, Kind := FieldKind.REFERENCE }

def sitemapTypeDemo : SType :=
  { TypeName := typeWStr, Fields := [sitemapFieldDemo] }

/-- C7 (counterexample): a REFERENCE field whose declared type `Sitemap` is
not an array and does not denote a map is nevertheless labelled REPEATED,
because the code tests `strings.Contains(NativeType, "map")`. -/
theorem c7_counterexample :
    sitemapFieldDemo.Kind ≠ FieldKind.ARRAY ∧
    nativeTypeDenotesMap sitemapFieldDemo.NativeType = false ∧
    (messageFromType pkgDemo [] sitemapTypeDemo).toOption.map
        (fun m => m.Field.map (fun fd => fd.Label)) =
      some [some FieldLabel.LABEL_REPEATED] ∧
    some FieldLabel.LABEL_REPEATED ≠ some FieldLabel.LABEL_OPTIONAL := by
  refine ⟨by decide, by decide, rfl, by decide⟩

/-- C7 (amended): every field descriptor of a built message carries the
label of its own source field, computed as REPEATED exactly when the field
kind is ARRAY or the declared native type contains the substring `map`
(so e.g. a REFERENCE to a type named `Sitemap` is REPEATED), and OPTIONAL
otherwise. -/
theorem c7_label_rule (pkg : String) (genMsgs : List (String × String))
    (t : SType) (msg : DescriptorProto)
    (h : messageFromType pkg genMsgs t = .ok msg) :
    msg.Field.map (fun fd => fd.Label) =
      (t.Fields.filter (fun f => !(skippedField f))).map
        (fun f => some (fieldLabelGo f)) ∧
    ∀ f : SField, fieldLabelGo f = FieldLabel.LABEL_REPEATED ↔
      (f.Kind = FieldKind.ARRAY ∨ stringsContains f.NativeType mapMarker = true) := by
  constructor
  · have hpairs := buildFields_numbers_labels pkg genMsgs t.Fields 0
      { Name := t.TypeName } msg h
    simp only [List.map_nil, List.nil_append] at hpairs
    have hsnd : msg.Field.map (fun fd => fd.Label) =
        (builtNumberLabels 0 t.Fields).map (fun p => p.2) := by
      rw [← hpairs, List.map_map]
      rfl
    rw [hsnd, builtNumberLabels_snd]
  · intro f
    unfold fieldLabelGo
    by_cases hc : f.Kind = FieldKind.ARRAY ∨ stringsContains f.NativeType mapMarker = true
    · simp [hc]
    · simp [hc]

def c7WitnessMsg : DescriptorProto :=
  match messageFromType pkgDemo [] sitemapTypeDemo with
  | .ok m => m
  | .error _ => { Name := emptyStr }

theorem c7_label_rule_witness :
    c7WitnessMsg.Field.map (fun fd => fd.Label) =
      (sitemapTypeDemo.Fields.filter (fun f => !(skippedField f))).map
        (fun f => some (fieldLabelGo f)) :=
  (c7_label_rule pkgDemo [] sitemapTypeDemo c7WitnessMsg rfl).1
/-! ## C6: service naming collisions -/

def charToDigit (c : Char) : Nat := c.toNat - 48

theorem charToDigit_ofNat (d : Nat) (h : d < 10) :
    charToDigit (Char.ofNat (48 + d)) = d := by
  interval_cases d <;> rfl

theorem itoaAux_ofDigits : ∀ (fuel n : Nat), n ≤ fuel →
    Nat.ofDigits 10 ((itoaAux fuel n).map charToDigit) = n := by
  intro fuel
  induction fuel with
  | zero =>
    intro n hn
    interval_cases n
    rfl
  | succ fuel ih =>
    intro n hn
    cases n with
    | zero => rfl
    | succ m =>
      have hmod : (m + 1) % 10 < 10 := Nat.mod_lt _ (by norm_num)
      have hdiv : (m + 1) / 10 ≤ fuel := by
        have := Nat.div_lt_self (Nat.succ_pos m) (by norm_num : 1 < 10)
        omega
      simp only [itoaAux, List.map_cons, Nat.ofDigits_cons,
        charToDigit_ofNat _ hmod, ih _ hdiv]
      have := Nat.mod_add_div (m + 1) 10
      omega

def parseNat (s : String) : Nat :=
  Nat.ofDigits 10 (s.data.reverse.map charToDigit)

theorem parseNat_itoa (n : Nat) : parseNat (itoa n) = n := by
  unfold itoa parseNat
  by_cases h : n = 0
  · subst h
    rfl
  · rw [if_neg h]
    show Nat.ofDigits 10 (((itoaAux n n).reverse).reverse.map charToDigit) = n
    rw [List.reverse_reverse]
    exact itoaAux_ofDigits n n le_rfl

theorem itoa_injective : Function.Injective itoa :=
  Function.LeftInverse.injective parseNat_itoa

theorem itoa_data_ne_nil (n : Nat) : (itoa n).data ≠ [] := by
  unfold itoa
  by_cases h : n = 0
  · subst h
    simp
  · rw [if_neg h]
    cases n with
    | zero => exact absurd rfl h
    | succ m =>
      show (itoaAux (m + 1) (m + 1)).reverse ≠ []
      simp [itoaAux]

theorem string_data_length_append (a b : String) :
    (a ++ b).data.length = a.data.length + b.data.length := by
  rw [string_data_append, List.length_append]

theorem string_append_left_cancel {a b c : String} (h : a ++ b = a ++ c) : b = c := by
  have hd := congrArg String.data h
  rw [string_data_append, string_data_append] at hd
  exact string_ext (List.append_cancel_left hd)

theorem string_append_empty (s : String) : s ++ emptyStr = s := by
  refine string_ext ?_
  rw [string_data_append]
  simp [emptyStr]

theorem serviceNameCandidate_injective (sN : String) :
    Function.Injective (serviceNameCandidate sN) := by
  have hlen7 : serviceSuffix.data.length = 7 := by decide
  have hpos : ∀ m : Nat, 1 ≤ (itoa m).data.length := fun m =>
    List.length_pos.mpr (itoa_data_ne_nil m)
  intro i j h
  match i, j with
  | 0, 0 => rfl
  | 1, 1 => rfl
  | 0, 1 =>
    exfalso
    have := congrArg (fun s => s.data.length) h
    simp only [serviceNameCandidate, string_data_length_append] at this
    omega
  | 1, 0 =>
    exfalso
    have := congrArg (fun s => s.data.length) h
    simp only [serviceNameCandidate, string_data_length_append] at this
    omega
  | 0, j + 2 =>
    exfalso
    have := congrArg (fun s => s.data.length) h
    simp only [serviceNameCandidate, string_data_length_append] at this
    have := hpos (j + 1)
    omega
  | j + 2, 0 =>
    exfalso
    have := congrArg (fun s => s.data.length) h
    simp only [serviceNameCandidate, string_data_length_append] at this
    have := hpos (j + 1)
    omega
  | 1, j + 2 =>
    exfalso
    have := congrArg (fun s => s.data.length) h
    simp only [serviceNameCandidate, string_data_length_append] at this
    have := hpos (j + 1)
    omega
  | j + 2, 1 =>
    exfalso
    have := congrArg (fun s => s.data.length) h
    simp only [serviceNameCandidate, string_data_length_append] at this
    have := hpos (j + 1)
    omega
  | i + 2, j + 2 =>
    have h2 : itoa (i + 1) = itoa (j + 1) :=
      string_append_left_cancel (a := sN ++ serviceSuffix)
        (by simpa [serviceNameCandidate, String.append_assoc] using h)
    have := itoa_injective h2
    omega

theorem exists_unused_candidate (names : List String) (sN : String) :
    ∃ k, k ≤ names.length + 1 ∧ serviceNameCandidate sN k ∉ names := by
  by_contra hcon
  push_neg at hcon
  have hinj : Function.Injective
      (fun k : Fin (names.length + 2) => serviceNameCandidate sN k.val) := by
    intro a b hab
    exact Fin.ext (serviceNameCandidate_injective sN hab)
  have hmap : ∀ a : Fin (names.length + 2), a ∈ Finset.univ →
      serviceNameCandidate sN a.val ∈ names.toFinset := by
    intro a _
    rw [List.mem_toFinset]
    have := a.isLt
    exact hcon a.val (by omega)
  have hcard := Finset.card_le_card_of_injOn
    (fun k : Fin (names.length + 2) => serviceNameCandidate sN k.val)
    hmap (fun a _ b _ hab => hinj hab)
  rw [Finset.card_univ, Fintype.card_fin] at hcard
  have hle := List.toFinset_card_le names
  omega

theorem candidate_step (sN : String) (k : Nat) :
    sN ++ serviceSuffix ++ (if k > 0 then itoa k else emptyStr) =
      serviceNameCandidate sN (k + 1) := by
  cases k with
  | zero =>
    rw [if_neg (lt_irrefl 0)]
    exact string_append_empty (sN ++ serviceSuffix)
  | succ m =>
    rw [if_pos (by omega)]
    rfl

theorem findValidServiceNameLoop_spec (names : List String) (sN : String) :
    ∀ (fuel k : Nat),
      (∀ i, i < k → serviceNameCandidate sN i ∈ names) →
      (∃ j, k ≤ j ∧ j < k + fuel ∧ serviceNameCandidate sN j ∉ names) →
      ∃ j, serviceNameCandidate sN j ∉ names ∧
        (∀ i, i < j → serviceNameCandidate sN i ∈ names) ∧
        findValidServiceNameLoop names sN fuel (serviceNameCandidate sN k) k =
          serviceNameCandidate sN j := by
  intro fuel
  induction fuel with
  | zero =>
    intro k _ hex
    obtain ⟨j, hj1, hj2, _⟩ := hex
    omega
  | succ fuel ih =>
    intro k hbelow hex
    by_cases hmem : serviceNameCandidate sN k ∈ names
    · have hloop : findValidServiceNameLoop names sN (fuel + 1)
          (serviceNameCandidate sN k) k =
          findValidServiceNameLoop names sN fuel (serviceNameCandidate sN (k + 1))
            (k + 1) := by
        simp only [findValidServiceNameLoop, if_pos hmem]
        rw [candidate_step]
      obtain ⟨j, hj1, hj2, hj3⟩ := hex
      have hjk : j ≠ k := fun he => hj3 (he ▸ hmem)
      have hex' : ∃ j, k + 1 ≤ j ∧ j < (k + 1) + fuel ∧
          serviceNameCandidate sN j ∉ names := ⟨j, by omega, by omega, hj3⟩
      have hbelow' : ∀ i, i < k + 1 → serviceNameCandidate sN i ∈ names := by
        intro i hi
        rcases Nat.lt_succ_iff_lt_or_eq.mp hi with h | h
        · exact hbelow i h
        · exact h ▸ hmem
      obtain ⟨j', h1, h2, h3⟩ := ih (k + 1) hbelow' hex'
      exact ⟨j', h1, h2, by rw [hloop]; exact h3⟩
    · refine ⟨k, hmem, hbelow, ?_⟩
      simp only [findValidServiceNameLoop, if_neg hmem]

theorem findValidServiceName_spec (messages : List DescriptorProto) (sN : String) :
    ∃ j, serviceNameCandidate sN j ∉ messages.map (fun m => m.Name) ∧
      (∀ i, i < j → serviceNameCandidate sN i ∈ messages.map (fun m => m.Name)) ∧
      findValidServiceName messages sN = serviceNameCandidate sN j := by
  obtain ⟨k, hk, hfree⟩ :=
    exists_unused_candidate (messages.map (fun m => m.Name)) sN
  have hlen : (messages.map (fun m => m.Name)).length = messages.length := by simp
  obtain ⟨j, h1, h2, h3⟩ := findValidServiceNameLoop_spec
    (messages.map (fun m => m.Name)) sN ((messages.map (fun m => m.Name)).length + 2) 0
    (fun i hi => absurd hi (Nat.not_lt_zero i))
    ⟨k, by omega, by omega, hfree⟩
  exact ⟨j, h1, h2, h3⟩

def petStr : String := "Pet"

theorem c6_service_name_collision (messages : List DescriptorProto)
    (serviceName : String) :
    findValidServiceName messages serviceName ∉ messages.map (fun m => m.Name) ∧
    (∃ j, findValidServiceName messages serviceName =
        serviceNameCandidate serviceName j ∧
      ∀ i, i < j → serviceNameCandidate serviceName i ∈
        messages.map (fun m => m.Name)) ∧
    (serviceName ∈ messages.map (fun m => m.Name) →
      serviceName ++ serviceSuffix ∉ messages.map (fun m => m.Name) →
      findValidServiceName messages serviceName = serviceName ++ serviceSuffix) ∧
    (∀ (pkg : String) (model : SModel) (msgs : List DescriptorProto) (st : GenState),
      (buildServiceFromMethods pkg model msgs st).1.Name ∉
        msgs.map (fun m => m.Name)) := by
  obtain ⟨j, hfree, hbelow, heq⟩ := findValidServiceName_spec messages serviceName
  refine ⟨by rw [heq]; exact hfree, ⟨j, heq, hbelow⟩, ?_, ?_⟩
  · intro hbase hsuf
    rw [heq]
    have hj0 : j ≠ 0 := by
      intro h0
      rw [h0] at hfree
      exact hfree hbase
    have hj2 : ¬ 2 ≤ j := by
      intro h2
      exact hsuf (hbelow 1 (by omega))
    have hj1 : j = 1 := by omega
    rw [hj1]
    rfl
  · intro pkg model msgs st
    obtain ⟨j', hfree', _, heq'⟩ := findValidServiceName_spec msgs (titleCase pkg)
    show findValidServiceName msgs (titleCase pkg) ∉ msgs.map (fun m => m.Name)
    rw [heq']
    exact hfree'

theorem c6_service_name_collision_witness :
    findValidServiceName [{ Name := petStr }] petStr = petStr ++ serviceSuffix :=
  (c6_service_name_collision [{ Name := petStr }] petStr).2.2.1 (by decide) (by decide)

/-! ## Run-level machinery (C2, C3, C4, C5) -/

theorem buildMessagesFromTypes_state (pkg : String) :
    ∀ (types : List SType) (st : GenState) (msgs : List DescriptorProto) (st' : GenState),
      buildMessagesFromTypes pkg types st = .ok (msgs, st') →
      st'.generatedSymbolicReferences = st.generatedSymbolicReferences ∧
      st'.shouldRenderEmptyImport = st.shouldRenderEmptyImport ∧
      st'.resolvedTrace = st.resolvedTrace := by
  intro types
  induction types with
  | nil =>
    intro st msgs st' h
    simp only [buildMessagesFromTypes] at h
    cases h
    exact ⟨rfl, rfl, rfl⟩
  | cons t rest ih =>
    intro st msgs st' h
    simp only [buildMessagesFromTypes] at h
    cases hm : messageFromType pkg st.generatedMessages t with
    | error e => rw [hm] at h; cases h
    | ok message =>
      rw [hm] at h
      cases hr : buildMessagesFromTypes pkg rest
          { st with generatedMessages :=
              (t.TypeName, pkg ++ dotStr ++ t.TypeName) :: st.generatedMessages } with
      | error e => rw [hr] at h; cases h
      | ok p =>
        obtain ⟨msgs2, st2⟩ := p
        rw [hr] at h
        cases h
        have h3 := ih { st with generatedMessages :=
          (t.TypeName, pkg ++ dotStr ++ t.TypeName) :: st.generatedMessages } msgs2 st' hr
        exact h3

/-- The method descriptor built for `m` (generator.go 269-293): request body
located first, then the empty-type substitution, then the descriptor. -/
def methodDescriptorFor (types : List SType) (m : SMethod) : MethodDescriptorProto :=
  { Name := m.HandlerName,
    InputType :=
      if m.ParametersTypeName = emptyStr then googleProtobufEmptyTypeName
      else m.ParametersTypeName,
    OutputType :=
      if m.ResponsesTypeName = emptyStr then googleProtobufEmptyTypeName
      else m.ResponsesTypeName,
    Options :=
      { Http := getHttpRuleForMethod m
          (getRequestBodyForRequestParameters m.ParametersTypeName types) } }

/-- Whether a method triggers the `google.protobuf.Empty` substitution. -/
def methodNeedsEmpty (m : SMethod) : Bool :=
  decide (m.ParametersTypeName = emptyStr) || decide (m.ResponsesTypeName = emptyStr)

theorem serviceMethodsLoop_spec (types : List SType) :
    ∀ (ms : List SMethod) (st : GenState),
      serviceMethodsLoop types ms st =
        (ms.map (methodDescriptorFor types),
         { st with shouldRenderEmptyImport :=
             st.shouldRenderEmptyImport || ms.any methodNeedsEmpty }) := by
  intro ms
  induction ms with
  | nil =>
    intro st
    simp [serviceMethodsLoop]
  | cons m rest ih =>
    intro st
    simp only [serviceMethodsLoop]
    by_cases h1 : m.ParametersTypeName = emptyStr <;>
      by_cases h2 : m.ResponsesTypeName = emptyStr <;>
        simp [h1, h2, ih, methodDescriptorFor, methodNeedsEmpty]

theorem collectDependencyNames_mem (flag : Bool) :
    ∀ (files : List FileDescriptorProto) (acc : List String) (x : String),
      x ∈ collectDependencyNames flag files acc ↔
        x ∈ acc ∨ ∃ fd ∈ files, fd.Name = x ∧ (x = emptyProtoFileName → flag = true) := by
  intro files
  induction files with
  | nil =>
    intro acc x
    simp [collectDependencyNames]
  | cons fd rest ih =>
    intro acc x
    simp only [collectDependencyNames]
    by_cases hname : fd.Name = emptyProtoFileName
    · rw [if_pos hname]
      by_cases hflag : flag = true
      · rw [if_pos hflag, ih]
        simp only [List.mem_append, List.mem_cons, List.not_mem_nil, or_false]
        constructor
        · rintro ((hx | hx) | ⟨g, hg, he, himp⟩)
          · exact Or.inl hx
          · exact Or.inr ⟨fd, Or.inl rfl, by rw [hx], fun _ => hflag⟩
          · exact Or.inr ⟨g, Or.inr hg, he, himp⟩
        · rintro (hx | ⟨g, hg | hg, he, himp⟩)
          · exact Or.inl (Or.inl hx)
          · exact Or.inl (Or.inr (by rw [← he, hg]))
          · exact Or.inr ⟨g, hg, he, himp⟩
      · rw [if_neg hflag, ih]
        constructor
        · rintro (hx | ⟨g, hg, he, himp⟩)
          · exact Or.inl hx
          · exact Or.inr ⟨g, List.mem_cons_of_mem fd hg, he, himp⟩
        · rintro (hx | ⟨g, hg, he, himp⟩)
          · exact Or.inl hx
          · rcases List.mem_cons.mp hg with rfl | hg2
            · exact absurd (himp (by rw [← he, hname])) hflag
            · exact Or.inr ⟨g, hg2, he, himp⟩
    · rw [if_neg hname, ih]
      simp only [List.mem_append, List.mem_cons, List.not_mem_nil, or_false]
      constructor
      · rintro ((hx | hx) | ⟨g, hg, he, himp⟩)
        · exact Or.inl hx
        · exact Or.inr ⟨fd, Or.inl rfl, by rw [hx], fun he => absurd (by rw [← hx, he]) hname⟩
        · exact Or.inr ⟨g, Or.inr hg, he, himp⟩
      · rintro (hx | ⟨g, hg | hg, he, himp⟩)
        · exact Or.inl (Or.inl hx)
        · exact Or.inl (Or.inr (by rw [← he, hg]))
        · exact Or.inr ⟨g, hg, he, himp⟩

theorem leChars_total : ∀ as bs, leChars as bs = true ∨ leChars bs as = true := by
  intro as
  induction as with
  | nil => intro bs; left; rfl
  | cons a as ih =>
    intro bs
    cases bs with
    | nil => right; rfl
    | cons b bs =>
      simp only [leChars]
      rcases Nat.lt_trichotomy a.toNat b.toNat with h | h | h
      · left
        rw [if_pos h]
      · have h1 : ¬ a.toNat < b.toNat := by omega
        have h2 : ¬ b.toNat < a.toNat := by omega
        rw [if_neg h1, if_neg h2, if_neg h2, if_neg h1]
        exact ih bs
      · right
        rw [if_pos h]

theorem leChars_trans :
    ∀ as bs cs, leChars as bs = true → leChars bs cs = true →
      leChars as cs = true := by
  intro as
  induction as with
  | nil => intro bs cs _ _; rfl
  | cons a as ih =>
    intro bs cs h1 h2
    cases bs with
    | nil => simp [leChars] at h1
    | cons b bs =>
      cases cs with
      | nil => simp [leChars] at h2
      | cons c cs =>
        simp only [leChars] at h1 h2 ⊢
        by_cases hab : a.toNat < b.toNat
        · by_cases hbc : b.toNat < c.toNat
          · rw [if_pos (by omega : a.toNat < c.toNat)]
          · by_cases hcb : c.toNat < b.toNat
            · rw [if_neg hbc, if_pos hcb] at h2
              cases h2
            · rw [if_pos (by omega : a.toNat < c.toNat)]
        · by_cases hba : b.toNat < a.toNat
          · rw [if_neg hab, if_pos hba] at h1
            cases h1
          · by_cases hbc : b.toNat < c.toNat
            · rw [if_pos (by omega : a.toNat < c.toNat)]
            · by_cases hcb : c.toNat < b.toNat
              · rw [if_neg hbc, if_pos hcb] at h2
                cases h2
              · rw [if_neg (by omega : ¬ a.toNat < c.toNat),
                  if_neg (by omega : ¬ c.toNat < a.toNat)]
                rw [if_neg hab, if_neg hba] at h1
                rw [if_neg hbc, if_neg hcb] at h2
                exact ih bs cs h1 h2

instance : IsTotal String (fun a b => leString a b = true) :=
  ⟨fun a b => leChars_total a.data b.data⟩

instance : IsTrans String (fun a b => leString a b = true) :=
  ⟨fun a b c => leChars_trans a.data b.data c.data⟩

theorem sortStrings_sorted (l : List String) :
    List.Sorted (fun a b => leString a b = true) (sortStrings l) :=
  List.sorted_insertionSort _ l

theorem sortStrings_mem (l : List String) (x : String) :
    x ∈ sortStrings l ↔ x ∈ l :=
  (List.perm_insertionSort _ l).mem_iff

/-- Anatomy of a successful run: the stages it went through and the exact
form of the returned descriptor set. -/
theorem runGenerator_ok_shape (resolve : Resolver) (fuel : Nat) (pkg : String)
    (model : SModel) (st : GenState)
    (fdSet : FileDescriptorSet) (sets : List FileDescriptorSet) (st' : GenState)
    (h : runGenerator resolve fuel pkg model st = .ok (fdSet, sets, st')) :
    ∃ (fuel' : Nat) (symProtos : List FileDescriptorProto)
      (symSets : List FileDescriptorSet) (st1 : GenState)
      (msgs : List DescriptorProto) (st2 : GenState)
      (service : ServiceDescriptorProto),
      fuel = fuel' + 1 ∧
      symRefLoop resolve (fun p m s => runGenerator resolve fuel' p m s)
        (trimAndRemoveDuplicates model.SymbolicReferences) st =
        .ok (symProtos, symSets, st1) ∧
      buildMessagesFromTypes pkg model.Types st1 = .ok (msgs, st2) ∧
      buildServiceFromMethods pkg model msgs st2 = (service, st') ∧
      sets = symSets ∧
      fdSet.File =
        (symProtos ++ dependencyFiles) ++
          [addDependencies st'.shouldRenderEmptyImport (symProtos ++ dependencyFiles)
            { initialMainProto pkg with MessageType := msgs, Service := [service] }] := by
  cases fuel with
  | zero => simp [runGenerator] at h
  | succ fuel' =>
    simp only [runGenerator] at h
    split at h
    · cases h
    · rename_i symProtos symSets st1 hsym
      split at h
      · cases h
      · rename_i msgs st2 hbm
        simp only [Except.ok.injEq, Prod.mk.injEq] at h
        obtain ⟨h1, h2, h3⟩ := h
        refine ⟨fuel', symProtos, symSets, st1, msgs, st2,
          (buildServiceFromMethods pkg model msgs st2).1, rfl, hsym, hbm, ?_, h2.symm, ?_⟩
        · rw [← h3]
        · have hdl : (symProtos ++ buildDependencies [initialMainProto pkg]).dropLast =
              symProtos ++ dependencyFiles := by
            show (symProtos ++ (dependencyFiles ++ [initialMainProto pkg])).dropLast = _
            rw [← List.append_assoc, List.dropLast_concat]
          rw [← h1, hdl, ← h3]

/-- The invariant tying the ghost trace to the resolved-URL registry: the
trace has no duplicate URL, and every traced URL is registered. -/
def StateInv (s : GenState) : Prop :=
  s.resolvedTrace.Nodup ∧
  ∀ u ∈ s.resolvedTrace, u ∈ s.generatedSymbolicReferences

/-- What every stage of the generator preserves about the threaded state:
the resolved-URL registry only grows, the empty-import flag is never reset,
the trace only grows at its end, and `StateInv` is maintained. -/
def statePres (s s' : GenState) : Prop :=
  (∀ u ∈ s.generatedSymbolicReferences, u ∈ s'.generatedSymbolicReferences) ∧
  (s.shouldRenderEmptyImport = true → s'.shouldRenderEmptyImport = true) ∧
  (∃ new, s'.resolvedTrace = s.resolvedTrace ++ new) ∧
  (StateInv s → StateInv s')

theorem statePres_refl (s : GenState) : statePres s s :=
  ⟨fun _ h => h, id, ⟨[], by simp⟩, id⟩

theorem statePres_trans {a b c : GenState} (h1 : statePres a b) (h2 : statePres b c) :
    statePres a c := by
  obtain ⟨g1, f1, ⟨n1, t1⟩, i1⟩ := h1
  obtain ⟨g2, f2, ⟨n2, t2⟩, i2⟩ := h2
  exact ⟨fun u hu => g2 u (g1 u hu), fun hf => f2 (f1 hf),
    ⟨n1 ++ n2, by rw [t2, t1, List.append_assoc]⟩, fun hi => i2 (i1 hi)⟩

theorem buildMessagesFromTypes_pres (pkg : String) (types : List SType)
    (st : GenState) (msgs : List DescriptorProto) (st' : GenState)
    (h : buildMessagesFromTypes pkg types st = .ok (msgs, st')) :
    statePres st st' := by
  obtain ⟨hg, hf, ht⟩ := buildMessagesFromTypes_state pkg types st msgs st' h
  refine ⟨fun u hu => by rw [hg]; exact hu, fun hh => by rw [hf]; exact hh,
    ⟨[], by rw [ht, List.append_nil]⟩, fun hi => ?_⟩
  obtain ⟨hn, hm⟩ := hi
  constructor
  · rw [ht]; exact hn
  · intro u hu
    rw [ht] at hu
    rw [hg]
    exact hm u hu

theorem serviceMethodsLoop_pres (types : List SType) (ms : List SMethod)
    (st : GenState) :
    statePres st (serviceMethodsLoop types ms st).2 := by
  rw [serviceMethodsLoop_spec]
  refine ⟨fun u hu => hu, fun hf => by simp [hf], ⟨[], by simp⟩, fun hi => ?_⟩
  obtain ⟨hn, hm⟩ := hi
  exact ⟨hn, hm⟩

/-- The marking step of the reference loop preserves the state relation:
marking a not-yet-registered URL and tracing its resolution. -/
theorem markRef_pres (st : GenState) (ref : String)
    (hmem : ref ∉ st.generatedSymbolicReferences) :
    statePres st
      { st with
        generatedSymbolicReferences := ref :: st.generatedSymbolicReferences,
        resolvedTrace := st.resolvedTrace ++ [ref] } := by
  refine ⟨fun u hu => List.mem_cons_of_mem ref hu, id, ⟨[ref], rfl⟩, fun hi => ?_⟩
  obtain ⟨hn, hm⟩ := hi
  constructor
  · rw [List.nodup_append]
    refine ⟨hn, List.nodup_singleton ref, ?_⟩
    intro u hu hu2
    rw [List.mem_singleton] at hu2
    subst hu2
    exact hmem (hm u hu)
  · intro u hu
    rcases List.mem_append.mp hu with hu2 | hu2
    · exact List.mem_cons_of_mem ref (hm u hu2)
    · rw [List.mem_singleton] at hu2
      subst hu2
      exact List.mem_cons_self _ _

theorem symRefLoop_pres (resolve : Resolver)
    (recur : String → SModel → GenState →
      Except String (FileDescriptorSet × List FileDescriptorSet × GenState))
    (hrec : ∀ p m s out, recur p m s = .ok out → statePres s out.2.2) :
    ∀ (refs : List String) (st : GenState)
      (out : List FileDescriptorProto × List FileDescriptorSet × GenState),
      symRefLoop resolve recur refs st = .ok out → statePres st out.2.2 := by
  intro refs
  induction refs with
  | nil =>
    intro st out h
    cases h
    exact statePres_refl st
  | cons ref rest ih =>
    intro st out h
    simp only [symRefLoop] at h
    by_cases hmem : ref ∈ st.generatedSymbolicReferences
    · rw [if_pos hmem] at h
      exact ih st out h
    · rw [if_neg hmem] at h
      split at h
      · cases h
      · rename_i m hres
        split at h
        · cases h
        · rename_i out2 newFdSet xsets st2 hrec2
          split at h
          · cases h
          · rename_i symbolicProto hlast
            split at h
            · cases h
            · rename_i out3 protos sets3 st3 hrest
              simp only [Except.ok.injEq] at h
              subst h
              have p1 := markRef_pres st ref hmem
              have p2 := hrec _ _ _ _ hrec2
              have p3 := ih st2 (protos, sets3, st3) hrest
              exact statePres_trans (statePres_trans p1 p2) p3

theorem runGenerator_pres (resolve : Resolver) :
    ∀ (fuel : Nat) (pkg : String) (model : SModel) (st : GenState)
      (out : FileDescriptorSet × List FileDescriptorSet × GenState),
      runGenerator resolve fuel pkg model st = .ok out → statePres st out.2.2 := by
  intro fuel
  induction fuel with
  | zero =>
    intro pkg model st out h
    simp [runGenerator] at h
  | succ fuel ih =>
    intro pkg model st out h
    obtain ⟨fdSet, sets, st'⟩ := out
    obtain ⟨fuel', symProtos, symSets, st1, msgs, st2, service,
      hfe, hsym, hbm, hbs, hsets, hfile⟩ :=
      runGenerator_ok_shape resolve (fuel + 1) pkg model st fdSet sets st' h
    have hfuel : fuel' = fuel := by omega
    subst hfuel
    have p1 := symRefLoop_pres resolve _
      (fun p m s o hh => ih p m s o hh) _ st (symProtos, symSets, st1) hsym
    have p2 := buildMessagesFromTypes_pres pkg model.Types st1 msgs st2 hbm
    have p3 := serviceMethodsLoop_pres model.Types model.Methods st2
    have hst3 : (serviceMethodsLoop model.Types model.Methods st2).2 = st' := by
      have : buildServiceFromMethods pkg model msgs st2 =
          ({ Name := findValidServiceName msgs (titleCase pkg),
             Method := (serviceMethodsLoop model.Types model.Methods st2).1 },
           (serviceMethodsLoop model.Types model.Methods st2).2) := rfl
      rw [this] at hbs
      exact (Prod.mk.injEq _ _ _ _ ▸ hbs).2
    rw [← hst3]
    exact statePres_trans (statePres_trans p1 p2) p3

theorem getLast?_append_right {α : Type} (pre fs : List α) (h : fs ≠ []) :
    (pre ++ fs).getLast? = fs.getLast? := by
  rw [List.getLast?_append]
  obtain ⟨y, hy⟩ := Option.isSome_iff_exists.mp (List.getLast?_isSome.mpr h)
  rw [hy]
  rfl

/-- C4: at every stage after the initial set is constructed, the file
descriptor of the current document is the final entry: the dependency stage
and the symbolic-reference stage only prepend (they preserve the last
element of any non-empty set), and the set returned by a successful run is
exactly the prepended symbolic and foundation descriptors followed by the
current document's file (carrying the package's name). -/
theorem c4_target_file_is_last (resolve : Resolver) (fuel : Nat) (pkg : String)
    (model : SModel) (st : GenState) (fdSet : FileDescriptorSet)
    (sets : List FileDescriptorSet) (st' : GenState)
    (h : runGenerator resolve fuel pkg model st = .ok (fdSet, sets, st')) :
    (∃ (symProtos : List FileDescriptorProto) (main : FileDescriptorProto),
      fdSet.File = (symProtos ++ dependencyFiles) ++ [main] ∧
      main.Name = pkg ++ protoExt ∧ main.Package = pkg) ∧
    (∀ fs : List FileDescriptorProto, fs ≠ [] →
      (buildDependencies fs).getLast? = fs.getLast?) ∧
    (∀ (pre fs : List FileDescriptorProto), fs ≠ [] →
      (pre ++ fs).getLast? = fs.getLast?) := by
  obtain ⟨fuel', symProtos, symSets, st1, msgs, st2, service,
    hfe, hsym, hbm, hbs, hsets, hfile⟩ :=
    runGenerator_ok_shape resolve fuel pkg model st fdSet sets st' h
  refine ⟨⟨symProtos, _, hfile, rfl, rfl⟩, ?_, ?_⟩
  · intro fs hfs
    exact getLast?_append_right dependencyFiles fs hfs
  · intro pre fs hfs
    exact getLast?_append_right pre fs hfs

/-- C3 (amended): the dependency list of the target (last) file of every
successful run is sorted in Go's byte-lexicographic string order; and it
does not contain the target's own name provided no other file of the final
set carries the same name.  (The code skips the target by pointer identity,
so another file that happens to have the same name -- e.g. the target of a
recursively-resolved document whose base name matches the package -- is
listed.) -/
theorem c3_dependency_list (resolve : Resolver) (fuel : Nat) (pkg : String)
    (model : SModel) (st : GenState) (fdSet : FileDescriptorSet)
    (sets : List FileDescriptorSet) (st' : GenState)
    (h : runGenerator resolve fuel pkg model st = .ok (fdSet, sets, st')) :
    ∃ (others : List FileDescriptorProto) (main : FileDescriptorProto),
      fdSet.File = others ++ [main] ∧
      List.Sorted (fun a b => leString a b = true) main.Dependency ∧
      ((∀ fd ∈ others, fd.Name ≠ main.Name) → main.Name ∉ main.Dependency) := by
  obtain ⟨fuel', symProtos, symSets, st1, msgs, st2, service,
    hfe, hsym, hbm, hbs, hsets, hfile⟩ :=
    runGenerator_ok_shape resolve fuel pkg model st fdSet sets st' h
  refine ⟨symProtos ++ dependencyFiles, _, hfile, ?_, ?_⟩
  · exact sortStrings_sorted _
  · intro hne hmem
    have hmem2 := (sortStrings_mem _ _).mp hmem
    rw [collectDependencyNames_mem] at hmem2
    rcases hmem2 with hx | ⟨fd, hfd, hename, _⟩
    · exact List.not_mem_nil _ hx
    · exact hne fd hfd hename

/-- C2 (amended): empty parameter/response type names are substituted with
`google.protobuf.Empty` in every method descriptor, and
`google/protobuf/empty.proto` appears in the target's dependency list
exactly when the process-wide `shouldRenderEmptyImport` flag is set at the
end of the run.  The flag is set-only: it is raised by any method of this
run (or of any recursive sub-run) that required the substitution, and it
stays raised from earlier runs; only for a run with no symbolic references
is the flag at the end exactly "it was set on entry, or some method of this
run required the substitution". -/
theorem c2_empty_type_substitution (resolve : Resolver) (fuel : Nat) (pkg : String)
    (model : SModel) (st : GenState) (fdSet : FileDescriptorSet)
    (sets : List FileDescriptorSet) (st' : GenState)
    (h : runGenerator resolve fuel pkg model st = .ok (fdSet, sets, st')) :
    ∃ (others : List FileDescriptorProto) (main : FileDescriptorProto)
      (svc : ServiceDescriptorProto),
      fdSet.File = others ++ [main] ∧
      main.Service = [svc] ∧
      svc.Method = model.Methods.map (methodDescriptorFor model.Types) ∧
      (∀ m ∈ model.Methods,
        (methodDescriptorFor model.Types m).InputType =
          (if m.ParametersTypeName = emptyStr then googleProtobufEmptyTypeName
           else m.ParametersTypeName) ∧
        (methodDescriptorFor model.Types m).OutputType =
          (if m.ResponsesTypeName = emptyStr then googleProtobufEmptyTypeName
           else m.ResponsesTypeName)) ∧
      (emptyProtoFileName ∈ main.Dependency ↔ st'.shouldRenderEmptyImport = true) ∧
      (st.shouldRenderEmptyImport = true → st'.shouldRenderEmptyImport = true) ∧
      ((∃ m ∈ model.Methods, methodNeedsEmpty m = true) →
        st'.shouldRenderEmptyImport = true) ∧
      (model.SymbolicReferences = [] →
        (st'.shouldRenderEmptyImport = true ↔
          (st.shouldRenderEmptyImport = true ∨
            ∃ m ∈ model.Methods, methodNeedsEmpty m = true))) := by
  obtain ⟨fuel', symProtos, symSets, st1, msgs, st2, service,
    hfe, hsym, hbm, hbs, hsets, hfile⟩ :=
    runGenerator_ok_shape resolve fuel pkg model st fdSet sets st' h
  have hloop := serviceMethodsLoop_spec model.Types model.Methods st2
  have hbs2 : buildServiceFromMethods pkg model msgs st2 =
      ({ Name := findValidServiceName msgs (titleCase pkg),
         Method := model.Methods.map (methodDescriptorFor model.Types) },
       { st2 with shouldRenderEmptyImport :=
           st2.shouldRenderEmptyImport || model.Methods.any methodNeedsEmpty }) := by
    unfold buildServiceFromMethods
    rw [hloop]
  rw [hbs2] at hbs
  have hsvc : service =
      { Name := findValidServiceName msgs (titleCase pkg),
        Method := model.Methods.map (methodDescriptorFor model.Types) } :=
    ((Prod.mk.injEq _ _ _ _).mp hbs).1.symm
  have hstate : st' =
      { st2 with
        shouldRenderEmptyImport :=
          st2.shouldRenderEmptyImport || model.Methods.any methodNeedsEmpty } :=
    ((Prod.mk.injEq _ _ _ _).mp hbs).2.symm
  refine ⟨symProtos ++ dependencyFiles, _, service, hfile, rfl, by rw [hsvc], ?_, ?_, ?_, ?_, ?_⟩
  · intro m _
    exact ⟨rfl, rfl⟩
  · constructor
    · intro hmem
      have hmem2 := (sortStrings_mem _ _).mp hmem
      rw [collectDependencyNames_mem] at hmem2
      rcases hmem2 with hx | ⟨fd, _, hename, himp⟩
      · exact absurd hx (List.not_mem_nil _)
      · exact himp (hename ▸ rfl)
    · intro hflag
      apply (sortStrings_mem _ _).mpr
      rw [collectDependencyNames_mem]
      refine Or.inr ⟨emptyFileDescr, ?_, rfl, fun _ => hflag⟩
      exact List.mem_append_right symProtos (by simp [dependencyFiles])
  · intro hfl
    exact (runGenerator_pres resolve fuel pkg model st (fdSet, sets, st') h).2.1 hfl
  · intro hex
    rw [hstate]
    show (st2.shouldRenderEmptyImport || model.Methods.any methodNeedsEmpty) = true
    rw [List.any_eq_true.mpr hex]
    simp
  · intro hrefs
    have hloopnil : symRefLoop resolve (fun p m s => runGenerator resolve fuel' p m s)
        (trimAndRemoveDuplicates model.SymbolicReferences) st = .ok ([], [], st) := by
      rw [hrefs]
      rfl
    rw [hloopnil] at hsym
    simp only [Except.ok.injEq, Prod.mk.injEq] at hsym
    obtain ⟨_, _, hst1⟩ := hsym
    have hstf := (buildMessagesFromTypes_state pkg model.Types st1 msgs st2 hbm).2.1
    rw [hstate]
    show (st2.shouldRenderEmptyImport || model.Methods.any methodNeedsEmpty) = true ↔ _
    rw [hstf, hst1]
    constructor
    · intro hor
      rcases Bool.or_eq_true_iff.mp hor with hl | hr
      · exact Or.inl hl
      · exact Or.inr (List.any_eq_true.mp hr)
    · intro hor
      rcases hor with hl | hr
      · rw [hl]
        simp
      · rw [List.any_eq_true.mpr hr]
        simp

theorem trimAndRemoveDuplicatesLoop_nodup :
    ∀ (urls acc : List String), acc.Nodup → (trimAndRemoveDuplicatesLoop acc urls).Nodup := by
  intro urls
  induction urls with
  | nil => intro acc h; exact h
  | cons url rest ih =>
    intro acc h
    simp only [trimAndRemoveDuplicatesLoop]
    by_cases hdup : isDuplicate acc (trimFragment url) = true
    · rw [if_pos hdup]
      exact ih acc h
    · rw [if_neg hdup]
      refine ih _ ?_
      rw [List.nodup_append]
      refine ⟨h, List.nodup_singleton _, ?_⟩
      intro x hx hx2
      rw [List.mem_singleton] at hx2
      subst hx2
      exact hdup ((isDuplicate_iff acc _).mpr hx)

theorem trimAndRemoveDuplicatesLoop_mem :
    ∀ (urls acc : List String) (x : String),
      x ∈ trimAndRemoveDuplicatesLoop acc urls ↔
        x ∈ acc ∨ ∃ u ∈ urls, trimFragment u = x := by
  intro urls
  induction urls with
  | nil =>
    intro acc x
    simp [trimAndRemoveDuplicatesLoop]
  | cons url rest ih =>
    intro acc x
    simp only [trimAndRemoveDuplicatesLoop]
    by_cases hdup : isDuplicate acc (trimFragment url) = true
    · rw [if_pos hdup, ih]
      simp only [List.mem_cons]
      constructor
      · rintro (hx | ⟨u, hu, he⟩)
        · exact Or.inl hx
        · exact Or.inr ⟨u, Or.inr hu, he⟩
      · rintro (hx | ⟨u, hu | hu, he⟩)
        · exact Or.inl hx
        · subst hu
          subst he
          exact Or.inl ((isDuplicate_iff acc _).mp hdup)
        · exact Or.inr ⟨u, hu, he⟩
    · rw [if_neg hdup, ih]
      simp only [List.mem_append, List.mem_cons, List.not_mem_nil, or_false]
      constructor
      · rintro ((hx | hx) | ⟨u, hu, he⟩)
        · exact Or.inl hx
        · exact Or.inr ⟨url, Or.inl rfl, hx.symm⟩
        · exact Or.inr ⟨u, Or.inr hu, he⟩
      · rintro (hx | ⟨u, hu | hu, he⟩)
        · exact Or.inl (Or.inl hx)
        · subst hu
          exact Or.inl (Or.inr he.symm)
        · exact Or.inr ⟨u, hu, he⟩

theorem trimAndRemoveDuplicatesLoop_sublist :
    ∀ (urls acc : List String), ∃ s, trimAndRemoveDuplicatesLoop acc urls = acc ++ s ∧
      s.Sublist (urls.map trimFragment) := by
  intro urls
  induction urls with
  | nil => intro acc; exact ⟨[], by simp [trimAndRemoveDuplicatesLoop]⟩
  | cons url rest ih =>
    intro acc
    simp only [trimAndRemoveDuplicatesLoop, List.map_cons]
    by_cases hdup : isDuplicate acc (trimFragment url) = true
    · rw [if_pos hdup]
      obtain ⟨s, h1, h2⟩ := ih acc
      exact ⟨s, h1, h2.cons _⟩
    · rw [if_neg hdup]
      obtain ⟨s, h1, h2⟩ := ih (acc ++ [trimFragment url])
      refine ⟨trimFragment url :: s, ?_, h2.cons₂ _⟩
      rw [h1, List.append_assoc]
      rfl

theorem trimAndRemoveDuplicates_nodup (urls : List String) :
    (trimAndRemoveDuplicates urls).Nodup :=
  trimAndRemoveDuplicatesLoop_nodup urls [] List.nodup_nil

theorem trimAndRemoveDuplicates_mem (urls : List String) (x : String) :
    x ∈ trimAndRemoveDuplicates urls ↔ ∃ u ∈ urls, trimFragment u = x := by
  rw [trimAndRemoveDuplicates, trimAndRemoveDuplicatesLoop_mem]
  simp

theorem trimAndRemoveDuplicates_sublist (urls : List String) :
    (trimAndRemoveDuplicates urls).Sublist (urls.map trimFragment) := by
  obtain ⟨s, h1, h2⟩ := trimAndRemoveDuplicatesLoop_sublist urls []
  rw [trimAndRemoveDuplicates, h1]
  exact h2

theorem symRefLoop_counts (resolve : Resolver)
    (recur : String → SModel → GenState →
      Except String (FileDescriptorSet × List FileDescriptorSet × GenState))
    (hrec : ∀ p m s out, recur p m s = .ok out → statePres s out.2.2) :
    ∀ (refs : List String) (st : GenState) (protos : List FileDescriptorProto)
      (nestedSets : List FileDescriptorSet) (st' : GenState),
      symRefLoop resolve recur refs st = .ok (protos, nestedSets, st') →
      protos.length = nestedSets.length ∧
      ∀ ref ∈ refs, ref ∈ st'.generatedSymbolicReferences := by
  intro refs
  induction refs with
  | nil =>
    intro st protos nestedSets st' h
    cases h
    simp
  | cons ref rest ih =>
    intro st protos nestedSets st' h
    simp only [symRefLoop] at h
    by_cases hmem : ref ∈ st.generatedSymbolicReferences
    · rw [if_pos hmem] at h
      obtain ⟨hlen, hall⟩ := ih st protos nestedSets st' h
      have hpres := symRefLoop_pres resolve recur hrec rest st (protos, nestedSets, st') h
      refine ⟨hlen, ?_⟩
      intro r hr
      rcases List.mem_cons.mp hr with rfl | hr2
      · exact hpres.1 r hmem
      · exact hall r hr2
    · rw [if_neg hmem] at h
      split at h
      · cases h
      · rename_i m hres
        split at h
        · cases h
        · rename_i out2 newFdSet xsets st2 hrec2
          split at h
          · cases h
          · rename_i symbolicProto hlast
            split at h
            · cases h
            · rename_i out3 protos3 sets3 st3 hrest
              simp only [Except.ok.injEq, Prod.mk.injEq] at h
              obtain ⟨hp, hs, hst⟩ := h
              subst hp hs
              rw [← hst]
              obtain ⟨hlen, hall⟩ := ih st2 protos3 sets3 st3 hrest
              refine ⟨by simp [hlen], ?_⟩
              intro r hr
              rcases List.mem_cons.mp hr with rfl | hr2
              · have h1 : r ∈ ({ st with
                    generatedSymbolicReferences := r :: st.generatedSymbolicReferences,
                    resolvedTrace := st.resolvedTrace ++ [r] } :
                      GenState).generatedSymbolicReferences :=
                  List.mem_cons_self r _
                have p2 := hrec _ _ _ _ hrec2
                have p3 := symRefLoop_pres resolve recur hrec rest st2
                  (protos3, sets3, st3) hrest
                exact p3.1 r (p2.1 r h1)
              · exact hall r hr2

/-- C5: URLs equal after discarding their `#fragment` are resolved at most
once per run.  `trimAndRemoveDuplicates` keeps exactly one occurrence of
each trimmed URL, in first-seen order (a sublist of the trimmed input); the
reference loop produces exactly one nested descriptor set per symbolic
dependency file descriptor and registers every processed URL; and over a
whole run (recursion included) the ghost trace of resolver invocations never
repeats a URL, because registered URLs are recognized and skipped. -/
theorem c5_symbolic_reference_dedup :
    (∀ (urls : List String) (u : String), u ∈ urls →
      (trimAndRemoveDuplicates urls).count (trimFragment u) = 1) ∧
    (∀ urls : List String,
      (trimAndRemoveDuplicates urls).Sublist (urls.map trimFragment)) ∧
    (∀ urls : List String, (trimAndRemoveDuplicates urls).Nodup) ∧
    (∀ (resolve : Resolver) (fuel : Nat) (refs : List String) (st : GenState)
       (protos : List FileDescriptorProto) (nestedSets : List FileDescriptorSet)
       (st' : GenState),
      symRefLoop resolve (fun p m s => runGenerator resolve fuel p m s) refs st =
        .ok (protos, nestedSets, st') →
      protos.length = nestedSets.length ∧
      ∀ ref ∈ refs, ref ∈ st'.generatedSymbolicReferences) ∧
    (∀ (resolve : Resolver) (fuel : Nat) (pkg : String) (model : SModel)
       (st : GenState) (out : FileDescriptorSet × List FileDescriptorSet × GenState),
      StateInv st → runGenerator resolve fuel pkg model st = .ok out →
      out.2.2.resolvedTrace.Nodup) := by
  refine ⟨?_, trimAndRemoveDuplicates_sublist, trimAndRemoveDuplicates_nodup, ?_, ?_⟩
  · intro urls u hu
    exact List.count_eq_one_of_mem (trimAndRemoveDuplicates_nodup urls)
      ((trimAndRemoveDuplicates_mem urls (trimFragment u)).mpr ⟨u, hu, rfl⟩)
  · intro resolve fuel refs st protos nestedSets st' h
    exact symRefLoop_counts resolve _
      (fun p m s o hh => runGenerator_pres resolve fuel p m s o hh)
      refs st protos nestedSets st' h
  · intro resolve fuel pkg model st out hinv h
    exact ((runGenerator_pres resolve fuel pkg model st out h).2.2.2 hinv).1

/-! ## Concrete scenarios: counterexamples and witnesses -/

/-- Extracts the dependency list of the last file of a successful run. -/
def lastFileDeps
    (r : Except String (FileDescriptorSet × List FileDescriptorSet × GenState)) :
    List String :=
  match r with
  | .ok out =>
    match out.1.File.getLast? with
    | some f => f.Dependency
    | none => []
  | .error _ => []

/-- Extracts the name of the last file of a successful run. -/
def lastFileName
    (r : Except String (FileDescriptorSet × List FileDescriptorSet × GenState)) :
    String :=
  match r with
  | .ok out =>
    match out.1.File.getLast? with
    | some f => f.Name
    | none => emptyStr
  | .error _ => emptyStr

/-- Finds the file with the given name in a successful run's set. -/
def fileNamed
    (r : Except String (FileDescriptorSet × List FileDescriptorSet × GenState))
    (n : String) : Option FileDescriptorProto :=
  match r with
  | .ok out => out.1.File.find? (fun f => decide (f.Name = n))
  | .error _ => none

def noResolver : Resolver := fun _ => .error emptyStr
def trivialModel : SModel := {}

def fallbackOut : FileDescriptorSet × List FileDescriptorSet × GenState :=
  (⟨[]⟩, [], initialGenState)

def trivialRunOut : FileDescriptorSet × List FileDescriptorSet × GenState :=
  match runGenerator noResolver 1 pkgDemo trivialModel initialGenState with
  | .ok out => out
  | .error _ => fallbackOut

theorem c4_target_file_is_last_witness :
    (trivialRunOut.1.File.getLast?).map (fun f => f.Name) =
      some (pkgDemo ++ protoExt) := by
  obtain ⟨⟨syms, main, hfile, hname, _⟩, _, _⟩ :=
    c4_target_file_is_last noResolver 1 pkgDemo trivialModel initialGenState
      trivialRunOut.1 trivialRunOut.2.1 trivialRunOut.2.2 rfl
  rw [hfile, List.getLast?_concat]
  simp [hname]

theorem c3_dependency_list_witness :
    List.Sorted (fun a b => leString a b = true)
      (lastFileDeps (runGenerator noResolver 1 pkgDemo trivialModel initialGenState)) := by
  have h : runGenerator noResolver 1 pkgDemo trivialModel initialGenState =
      .ok trivialRunOut := rfl
  obtain ⟨others, main, hfile, hsort, _⟩ :=
    c3_dependency_list noResolver 1 pkgDemo trivialModel initialGenState
      trivialRunOut.1 trivialRunOut.2.1 trivialRunOut.2.2 rfl
  rw [h]
  show List.Sorted (fun a b => leString a b = true)
    (match trivialRunOut.1.File.getLast? with
      | some f => f.Dependency
      | none => [])
  rw [hfile, List.getLast?_concat]
  exact hsort

def getVerbStr : String := "GET"
def pathXStr : String := "/x"
def handlerHStr : String := "H"

def emptyParamsMethodDemo : SMethod :=
  { Method := getVerbStr, Path := pathXStr, HandlerName := handlerHStr,
    ParametersTypeName := emptyStr, ResponsesTypeName := emptyStr }

def svcModelDemo : SModel := { Methods := [emptyParamsMethodDemo] }

def svcRunOut : FileDescriptorSet × List FileDescriptorSet × GenState :=
  match runGenerator noResolver 1 pkgDemo svcModelDemo initialGenState with
  | .ok out => out
  | .error _ => fallbackOut

theorem c2_empty_type_substitution_witness :
    emptyProtoFileName ∈
      lastFileDeps (runGenerator noResolver 1 pkgDemo svcModelDemo initialGenState) := by
  have h : runGenerator noResolver 1 pkgDemo svcModelDemo initialGenState =
      .ok svcRunOut := rfl
  obtain ⟨others, main, svc, hfile, _, _, _, hdep, _, hneeds, _⟩ :=
    c2_empty_type_substitution noResolver 1 pkgDemo svcModelDemo initialGenState
      svcRunOut.1 svcRunOut.2.1 svcRunOut.2.2 rfl
  have hflag := hneeds ⟨emptyParamsMethodDemo, by decide, by decide⟩
  have hmem := hdep.mpr hflag
  rw [h]
  show emptyProtoFileName ∈
    (match svcRunOut.1.File.getLast? with
      | some f => f.Dependency
      | none => [])
  rw [hfile, List.getLast?_concat]
  exact hmem

def urlBookstore : String := "sub/bookstore.json"
def bookstorePkg : String := "bookstore"

def resolveBookstore : Resolver := fun r =>
  if r = urlBookstore then .ok {} else .error emptyStr

def bookstoreModel : SModel := { SymbolicReferences := [urlBookstore] }

/-- C3 (counterexample): with a symbolic reference `sub/bookstore.json`
resolved while generating package `bookstore`, the recursively-produced file
is also named `bookstore.proto`, and since the code skips the target only by
pointer identity, the target's dependency list contains the target's own
name. -/
theorem c3_counterexample :
    lastFileName (runGenerator resolveBookstore 2 bookstorePkg bookstoreModel
        initialGenState) = bookstorePkg ++ protoExt ∧
    (bookstorePkg ++ protoExt) ∈
      lastFileDeps (runGenerator resolveBookstore 2 bookstorePkg bookstoreModel
        initialGenState) := by
  constructor
  · rfl
  · decide

def urlA : String := "a.json"
def urlB : String := "b.json"
def bProtoFileName : String := "b.proto"
def mainPkgStr : String := "main"

def modelRefA : SModel := { Methods := [emptyParamsMethodDemo] }
def modelRefB : SModel := {}

def resolveAB : Resolver := fun r =>
  if r = urlA then .ok modelRefA else if r = urlB then .ok modelRefB else .error emptyStr

def modelTopAB : SModel := { SymbolicReferences := [urlA, urlB] }

/-- C2 (counterexample): one fresh top-level run resolves `a.json` (whose
only method needs the empty substitution, raising the process-wide flag) and
then `b.json` (which has no methods at all); the run for `b.json`
nevertheless lists `google/protobuf/empty.proto` in the dependency list of
its target file `b.proto`, refuting "included if and only if some method of
that run actually required the empty substitution". -/
theorem c2_counterexample :
    resolveAB urlB = .ok modelRefB ∧
    modelRefB.Methods = [] ∧
    (fileNamed (runGenerator resolveAB 2 mainPkgStr modelTopAB initialGenState)
        bProtoFileName).map
      (fun f => decide (emptyProtoFileName ∈ f.Dependency)) = some true := by
  refine ⟨rfl, rfl, by decide⟩

def urlXA : String := "x.json#a"
def urlXB : String := "x.json#b"
def urlX : String := "x.json"

def resolveX : Resolver := fun r =>
  if r = urlX then .ok {} else .error emptyStr

def modelXX : SModel := { SymbolicReferences := [urlXA, urlXB] }

def c5RunOut : FileDescriptorSet × List FileDescriptorSet × GenState :=
  match runGenerator resolveX 2 pkgDemo modelXX initialGenState with
  | .ok out => out
  | .error _ => fallbackOut

theorem c5_symbolic_reference_dedup_witness :
    (trimAndRemoveDuplicates [urlXA, urlXB]).count (trimFragment urlXA) = 1 ∧
    c5RunOut.2.2.resolvedTrace.Nodup := by
  constructor
  · exact c5_symbolic_reference_dedup.1 [urlXA, urlXB] urlXA (by decide)
  · exact c5_symbolic_reference_dedup.2.2.2.2 resolveX 2 pkgDemo modelXX
      initialGenState c5RunOut
      ⟨List.nodup_nil, fun u hu => absurd hu (List.not_mem_nil u)⟩ rfl
